import Mathlib

/-!
# Sky-colour integrator (`atmosphere.c`): shallow embedding and checked properties

The C program works on `float`s.  The embedding is polymorphic in the scalar
type `α` (a linearly ordered field) and takes the three `libm` routines the
source calls (`sqrt`, `exp`, `pow`) as explicit arguments, so that every
definition below is an ordinary computable function mirroring the C text line by
line.  The theorems instantiate `α := ℝ` with `Real.sqrt`, `Real.exp` and
`Real.rpow`: they speak about the exact-arithmetic reading of the program;
rounding, overflow and NaN propagation of IEEE arithmetic are outside of it.
-/

namespace Atmosphere

/-! ## Data model (`atmosphere.h`) -/

/-- The C type `vec2`: `typedef struct {float x, y;} vec2;` -/
structure vec2 (α : Type) where
  x : α
  y : α
deriving DecidableEq, Repr

/-- The C type `vec3`: `typedef struct {float x, y, z;} vec3;` -/
structure vec3 (α : Type) where
  x : α
  y : α
  z : α
deriving DecidableEq, Repr

section Program

variable {α : Type} [LinearOrderedField α]

/-! ## Internal constants (`atmosphere.c`, lines 6-8) -/

/-- The constant `#define PI 3.141592`. -/
def PI : α := 3.141592

/-- The constant `#define ISTEPS 16`. -/
def ISTEPS : Nat := 16

/-- The constant `#define JSTEPS 8`. -/
def JSTEPS : Nat := 8

/-! ## Utility functions (`atmosphere.c`, lines 12-18) -/

/-- Source: `float dot(vec3 a, vec3 b) { return a.x*b.x + a.y*b.y + a.z*b.z; }` -/
def dot (a b : vec3 α) : α := a.x * b.x + a.y * b.y + a.z * b.z

/-- Source: `vec3 mul(vec3 a, float b) { return (vec3){a.x*b, a.y*b, a.z*b}; }` -/
def mul (a : vec3 α) (b : α) : vec3 α := ⟨a.x * b, a.y * b, a.z * b⟩

/-- Source: `float length(vec3 a) { return sqrt(a.x*a.x + a.y*a.y + a.z*a.z); }` -/
def length (sqrt : α → α) (a : vec3 α) : α := sqrt (a.x * a.x + a.y * a.y + a.z * a.z)

/-- Source: `vec3 normalize(vec3 a) { return mul(a, 1/length(a)); }` -/
def normalize (sqrt : α → α) (a : vec3 α) : vec3 α := mul a (1 / length sqrt a)

/-- Source: `vec3 add(vec3 a, vec3 b) { return (vec3){a.x+b.x, a.y+b.y, a.z+b.z}; }` -/
def add (a b : vec3 α) : vec3 α := ⟨a.x + b.x, a.y + b.y, a.z + b.z⟩

/-- Source: `float min(float a, float b) { return a<b?a:b; }` -/
def min (a b : α) : α := if a < b then a else b

/-- Source:
`vec3 expose(vec3 a) { return (vec3){1.0-exp(-a.x), 1.0-exp(-a.y), 1.0-exp(-a.z)}; }` -/
def expose (exp : α → α) (a : vec3 α) : vec3 α :=
  ⟨1.0 - exp (-a.x), 1.0 - exp (-a.y), 1.0 - exp (-a.z)⟩

/-! ## Ray-sphere intersection (`atmosphere.c`, lines 29-42) -/

/-- The local `d` of `rsi`: the discriminant `(b*b) - 4.0*a*c` with
`a = dot(rd, rd)`, `b = 2.0 * dot(rd, r0)`, `c = dot(r0, r0) - (sr * sr)`. -/
def rsi_d (r0 rd : vec3 α) (sr : α) : α :=
  let a := dot rd rd
  let b := 2.0 * dot rd r0
  let c := dot r0 r0 - (sr * sr)
  (b * b) - 4.0 * a * c

/-- Source: `vec2 rsi(vec3 r0, vec3 rd, float sr)`. -/
def rsi (sqrt : α → α) (r0 rd : vec3 α) (sr : α) : vec2 α :=
  let a := dot rd rd
  let b := 2.0 * dot rd r0
  let c := dot r0 r0 - (sr * sr)
  let d := (b * b) - 4.0 * a * c
  if d < 0.0 then ⟨1e5, -1e5⟩
  else ⟨(-b - sqrt d) / (2.0 * a), (-b + sqrt d) / (2.0 * a)⟩

/-! ## The scattering integrator (`atmosphere.c`, lines 62-159) -/

/-- The locals carried round the secondary loop (lines 115-136). -/
structure jState (α : Type) where
  jTime : α
  jOdRlh : α
  jOdMie : α

/-- One pass through the body of the secondary loop (lines 124-135). -/
def jBody (sqrt exp : α → α) (iPos pSun : vec3 α) (rPlanet shRlh shMie jStepSize : α)
    (s : jState α) : jState α :=
  let jPos := add iPos (mul pSun (s.jTime + jStepSize * 0.5))
  let jHeight := length sqrt jPos - rPlanet
  { jTime := s.jTime + jStepSize
    jOdRlh := s.jOdRlh + exp (-jHeight / shRlh) * jStepSize
    jOdMie := s.jOdMie + exp (-jHeight / shMie) * jStepSize }

/-- The secondary loop `for (j = 0; j < JSTEPS; j++)` started from
`jTime = 0.0`, `jOdRlh = 0.0`, `jOdMie = 0.0` (lines 112-136). -/
def jLoop (sqrt exp : α → α) (iPos pSun : vec3 α) (rPlanet rAtmos shRlh shMie : α) :
    jState α :=
  let jStepSize := (rsi sqrt iPos pSun rAtmos).y / (JSTEPS : α)
  (jBody sqrt exp iPos pSun rPlanet shRlh shMie jStepSize)^[JSTEPS] ⟨0.0, 0.0, 0.0⟩

/-- The locals carried round the primary loop (lines 77-85). -/
structure iState (α : Type) where
  iTime : α
  totalRlh : vec3 α
  totalMie : vec3 α
  iOdRlh : α
  iOdMie : α

/-- One pass through the body of the primary loop (lines 97-150). -/
def iBody (sqrt exp : α → α) (r0 rd pSun : vec3 α)
    (rPlanet rAtmos : α) (kRlh : vec3 α) (kMie shRlh shMie iStepSize : α)
    (s : iState α) : iState α :=
  let iPos := add r0 (mul rd (s.iTime + iStepSize * 0.5))
  let iHeight := length sqrt iPos - rPlanet
  let odStepRlh := exp (-iHeight / shRlh) * iStepSize
  let odStepMie := exp (-iHeight / shMie) * iStepSize
  let iOdRlh := s.iOdRlh + odStepRlh
  let iOdMie := s.iOdMie + odStepMie
  let j := jLoop sqrt exp iPos pSun rPlanet rAtmos shRlh shMie
  let attn : vec3 α :=
    ⟨exp (-(kMie * (iOdMie + j.jOdMie) + kRlh.x * (iOdRlh + j.jOdRlh))),
     exp (-(kMie * (iOdMie + j.jOdMie) + kRlh.y * (iOdRlh + j.jOdRlh))),
     exp (-(kMie * (iOdMie + j.jOdMie) + kRlh.z * (iOdRlh + j.jOdRlh)))⟩
  { iTime := s.iTime + iStepSize
    totalRlh := add s.totalRlh (mul attn odStepRlh)
    totalMie := add s.totalMie (mul attn odStepMie)
    iOdRlh := iOdRlh
    iOdMie := iOdMie }

/-- The local `iPos` of line 98, as a function of the loop state at the start of the pass:
`add(r0, mul(rd, (iTime + iStepSize * 0.5)))`. -/
def iPosOf (r0 rd : vec3 α) (iStepSize : α) (s : iState α) : vec3 α :=
  add r0 (mul rd (s.iTime + iStepSize * 0.5))

/-- The optical depth increment of lines 104, 105, 131 and 132:
`exp(-height / scaleHeight) * stepSize`. -/
def odStep (exp : α → α) (height scaleHeight stepSize : α) : α :=
  exp (-height / scaleHeight) * stepSize

/-- The far bound `p.y` after line 72, for already normalised `rd`:
`p.y = min(p.y, rsi(r0, rd, rPlanet).x)`. -/
def farBound (sqrt : α → α) (r0 rd : vec3 α) (rPlanet rAtmos : α) : α :=
  min (rsi sqrt r0 rd rAtmos).y (rsi sqrt r0 rd rPlanet).x

/-- The local `iStepSize` of line 73, for already normalised `rd`:
`(p.y - p.x) / (float)ISTEPS` with `p.y` the clamped far bound. -/
def iStepSizeOf (sqrt : α → α) (r0 rd : vec3 α) (rPlanet rAtmos : α) : α :=
  (farBound sqrt r0 rd rPlanet rAtmos - (rsi sqrt r0 rd rAtmos).x) / (ISTEPS : α)

/-- The local `pRlh` of line 91. -/
def pRlhOf (mu : α) : α :=
  let mumu := mu * mu
  3.0 / (16.0 * PI) * (1.0 + mumu)

/-- The local `pMie` of line 92. -/
def pMieOf (pow : α → α → α) (mu g : α) : α :=
  let mumu := mu * mu
  let gg := g * g
  3.0 / (8.0 * PI) * ((1.0 - gg) * (mumu + 1.0)) / (pow (1.0 + gg - 2.0 * mu * g) 1.5 * (2.0 + gg))

/-- The primary loop `for (i = 0; i < ISTEPS; i++)` started from `iTime = 0.0`
and zeroed accumulators (lines 77-151), for already normalised directions. -/
def iLoop (sqrt exp : α → α) (r0 rd pSun : vec3 α)
    (rPlanet rAtmos : α) (kRlh : vec3 α) (kMie shRlh shMie iStepSize : α) : iState α :=
  (iBody sqrt exp r0 rd pSun rPlanet rAtmos kRlh kMie shRlh shMie iStepSize)^[ISTEPS]
    ⟨0.0, ⟨0, 0, 0⟩, ⟨0, 0, 0⟩, 0.0, 0.0⟩

/-- Source: `vec3 atmosphere(vec3 r0, vec3 rd, vec3 pSun, float iSun, float rPlanet,
float rAtmos, vec3 kRlh, float kMie, float shRlh, float shMie, float g)`. -/
def atmosphere (sqrt exp : α → α) (pow : α → α → α) (r0 rd pSun : vec3 α)
    (iSun rPlanet rAtmos : α) (kRlh : vec3 α) (kMie shRlh shMie g : α) : vec3 α :=
  let pSun := normalize sqrt pSun
  let rd := normalize sqrt rd
  let p := rsi sqrt r0 rd rAtmos
  if p.x > p.y then ⟨0, 0, 0⟩
  else
    let iStepSize := iStepSizeOf sqrt r0 rd rPlanet rAtmos
    let mu := dot rd pSun
    let pRlh := pRlhOf mu
    let pMie := pMieOf pow mu g
    let s := iLoop sqrt exp r0 rd pSun rPlanet rAtmos kRlh kMie shRlh shMie iStepSize
    ⟨iSun * (pRlh * kRlh.x * s.totalRlh.x + pMie * kMie * s.totalMie.x),
     iSun * (pRlh * kRlh.y * s.totalRlh.y + pMie * kMie * s.totalMie.y),
     iSun * (pRlh * kRlh.z * s.totalRlh.z + pMie * kMie * s.totalMie.z)⟩

/-- The macro `ATMOSPHERE_EARTH` of `atmosphere.h`: it expands to the last eight
arguments of a call, so it is rendered as the supply of those arguments to a
function that awaits them, as in `atmosphere(r0, rd, pSun, ATMOSPHERE_EARTH)`. -/
def ATMOSPHERE_EARTH {β : Type}
    (f : α → α → α → vec3 α → α → α → α → α → β) : β :=
  f 22.0 6371e3 6471e3 ⟨5.5e-6, 13.0e-6, 22.4e-6⟩ 21e-6 8e3 1.2e3 0.758

/-! ## The image driver (`test_ppm.c`) -/

/-- The constant `#define W 640`. -/
def W : Nat := 640

/-- The constant `#define H 480`. -/
def H : Nat := 480

/-- The constant `#define XLIM 3.0`. -/
def XLIM : α := 3.0

/-- The constant `#define YLIM 2.0`. -/
def YLIM : α := 2.0

/-- The constant `#define SUN_HEIGHT 1`. -/
def SUN_HEIGHT : α := 1

/-- Source: `float map(float x, float in_min, float in_max, float out_min, float out_max)`. -/
def map (x in_min in_max out_min out_max : α) : α :=
  (x - in_min) * (out_max - out_min) / (in_max - in_min) + out_min

/-- The C library call `(int)round(x)`: the nearest integer, halfway cases rounded away
from zero. -/
def round [FloorRing α] (x : α) : ℤ :=
  if 0 ≤ x then Int.floor (x + 1 / 2) else Int.ceil (x - 1 / 2)

/-- The three integers that `main` prints for one ray direction `rd` (lines 25-26 and
46-51 of `test_ppm.c`). -/
def shade [FloorRing α] (sqrt exp : α → α) (pow : α → α → α) (rd : vec3 α) : ℤ × ℤ × ℤ :=
  let r0 : vec3 α := ⟨0, 6372e3, 0⟩
  let pSun : vec3 α := ⟨0, SUN_HEIGHT, -1⟩
  let color := ATMOSPHERE_EARTH (atmosphere sqrt exp pow r0 rd pSun)
  let color := mul (expose exp color) 255
  (round color.x, round color.y, round color.z)

/-- The three integers that `main` prints for the pixel `(ix, iy)` (lines 39-51 of
`test_ppm.c`). -/
def pixel [FloorRing α] (sqrt exp : α → α) (pow : α → α → α) (ix iy : Nat) : ℤ × ℤ × ℤ :=
  shade sqrt exp pow
    ⟨map (ix : α) 0 (W : α) (-XLIM) XLIM, map (iy : α) 0 (H : α) YLIM (-YLIM), -1⟩

end Program

/-! ## Basic facts about the vector helpers over `ℝ` -/

theorem vec3_ext_iff (a b : vec3 ℝ) : a = b ↔ a.x = b.x ∧ a.y = b.y ∧ a.z = b.z := by
  cases a; cases b; simp

theorem dot_self_nonneg (a : vec3 ℝ) : 0 ≤ dot a a := by
  unfold dot; nlinarith [mul_self_nonneg a.x, mul_self_nonneg a.y, mul_self_nonneg a.z]

theorem dot_self_pos {a : vec3 ℝ} (h : a ≠ ⟨0, 0, 0⟩) : 0 < dot a a := by
  rcases lt_or_eq_of_le (dot_self_nonneg a) with h1 | h1
  · exact h1
  · exfalso
    apply h
    unfold dot at h1
    have hx : a.x = 0 := by
      nlinarith [mul_self_nonneg a.x, mul_self_nonneg a.y, mul_self_nonneg a.z]
    have hy : a.y = 0 := by
      nlinarith [mul_self_nonneg a.x, mul_self_nonneg a.y, mul_self_nonneg a.z]
    have hz : a.z = 0 := by
      nlinarith [mul_self_nonneg a.x, mul_self_nonneg a.y, mul_self_nonneg a.z]
    rw [vec3_ext_iff]; exact ⟨hx, hy, hz⟩

/-- The squared distance from the centre of the point `r0 + t*rd`, minus `sr^2`, is the
quadratic `a*t^2 + b*t + c` whose coefficients `rsi` computes. -/
theorem dot_ray (r0 rd : vec3 ℝ) (sr t : ℝ) :
    dot (add r0 (mul rd t)) (add r0 (mul rd t)) - sr * sr
      = dot rd rd * t ^ 2 + 2.0 * dot rd r0 * t + (dot r0 r0 - sr * sr) := by
  simp only [dot, add, mul]; norm_num; ring

theorem rsi_d_eq (r0 rd : vec3 ℝ) (sr : ℝ) :
    rsi_d r0 rd sr
      = (2.0 * dot rd r0) * (2.0 * dot rd r0) - 4.0 * dot rd rd * (dot r0 r0 - sr * sr) := rfl

theorem rsi_of_neg (r0 rd : vec3 ℝ) (sr : ℝ) (h : rsi_d r0 rd sr < 0) :
    rsi Real.sqrt r0 rd sr = ⟨1e5, -1e5⟩ := by
  have h0 : rsi_d r0 rd sr < 0.0 := by norm_num; exact h
  unfold rsi_d at h0
  unfold rsi
  simp only [h0, if_true]

theorem rsi_of_nonneg (r0 rd : vec3 ℝ) (sr : ℝ) (h : 0 ≤ rsi_d r0 rd sr) :
    rsi Real.sqrt r0 rd sr
      = ⟨(-(2.0 * dot rd r0) - Real.sqrt (rsi_d r0 rd sr)) / (2.0 * dot rd rd),
         (-(2.0 * dot rd r0) + Real.sqrt (rsi_d r0 rd sr)) / (2.0 * dot rd rd)⟩ := by
  have h0 : ¬ rsi_d r0 rd sr < 0.0 := by norm_num; exact h
  unfold rsi_d at h0
  unfold rsi rsi_d
  simp only [h0, if_false]

/-- For a real hit the first distance returned by `rsi` is at most the second. -/
theorem rsi_x_le_y (r0 rd : vec3 ℝ) (sr : ℝ) (hrd : rd ≠ ⟨0, 0, 0⟩)
    (h : 0 ≤ rsi_d r0 rd sr) :
    (rsi Real.sqrt r0 rd sr).x ≤ (rsi Real.sqrt r0 rd sr).y := by
  rw [rsi_of_nonneg r0 rd sr h]
  have ha : 0 < 2.0 * dot rd rd := by
    have := dot_self_pos hrd
    norm_num; exact this
  have hs := Real.sqrt_nonneg (rsi_d r0 rd sr)
  show _ / _ ≤ _ / _
  apply div_le_div_of_nonneg_right _ ha.le
  linarith

/-- A number `t` with `2at = -b ± s`, where `s^2` is the discriminant, is a root. -/
theorem quad_root_of_sq (a b c t s : ℝ) (ha : a ≠ 0) (hs : s * s = b * b - 4 * a * c)
    (ht : t * (2 * a) = -b - s ∨ t * (2 * a) = -b + s) : a * t ^ 2 + b * t + c = 0 := by
  apply mul_left_cancel₀ ha
  rcases ht with ht | ht
  · linear_combination (1 / 4) * (2 * a * t + b - s) * ht + (1 / 4) * hs
  · linear_combination (1 / 4) * (2 * a * t + b + s) * ht + (1 / 4) * hs

theorem two_lit : (2.0 : ℝ) = 2 := by norm_num

theorem four_lit : (4.0 : ℝ) = 4 := by norm_num

/-- If the discriminant is non-negative, each distance returned by `rsi` solves the
quadratic. -/
theorem rsi_roots (r0 rd : vec3 ℝ) (sr : ℝ) (hrd : rd ≠ ⟨0, 0, 0⟩)
    (h : 0 ≤ rsi_d r0 rd sr) (t : ℝ)
    (ht : t = (rsi Real.sqrt r0 rd sr).x ∨ t = (rsi Real.sqrt r0 rd sr).y) :
    dot rd rd * t ^ 2 + 2.0 * dot rd r0 * t + (dot r0 r0 - sr * sr) = 0 := by
  have ha : 0 < dot rd rd := dot_self_pos hrd
  have ha2 : (2 : ℝ) * dot rd rd ≠ 0 := by positivity
  have hs : Real.sqrt (rsi_d r0 rd sr) * Real.sqrt (rsi_d r0 rd sr)
      = (2 * dot rd r0) * (2 * dot rd r0) - 4 * dot rd rd * (dot r0 r0 - sr * sr) := by
    rw [Real.mul_self_sqrt h, rsi_d_eq, two_lit, four_lit]
  rw [rsi_of_nonneg r0 rd sr h] at ht
  simp only [two_lit] at ht ⊢
  apply quad_root_of_sq _ _ _ t _ ha.ne.symm hs
  rcases ht with ht | ht
  · left; rw [ht, div_mul_cancel₀ _ ha2]
  · right; rw [ht, div_mul_cancel₀ _ ha2]

/-- C1: if the ray-sphere test of `(r0, normalize(rd))` against the atmosphere radius has a
negative discriminant, then `rsi` returns `x > y` and `atmosphere` returns exactly
`(0, 0, 0)`, whatever the sun direction and the parameters. -/
theorem atmosphere_zero_of_miss (r0 rd pSun : vec3 ℝ)
    (iSun rPlanet rAtmos : ℝ) (kRlh : vec3 ℝ) (kMie shRlh shMie g : ℝ)
    (h : rsi_d r0 (normalize Real.sqrt rd) rAtmos < 0) :
    (rsi Real.sqrt r0 (normalize Real.sqrt rd) rAtmos).x
        > (rsi Real.sqrt r0 (normalize Real.sqrt rd) rAtmos).y ∧
    atmosphere Real.sqrt Real.exp Real.rpow r0 rd pSun iSun rPlanet rAtmos kRlh kMie
        shRlh shMie g = ⟨0, 0, 0⟩ := by
  have hxy : (rsi Real.sqrt r0 (normalize Real.sqrt rd) rAtmos).x
      > (rsi Real.sqrt r0 (normalize Real.sqrt rd) rAtmos).y := by
    rw [rsi_of_neg _ _ _ h]
    show (-1e5 : ℝ) < 1e5
    norm_num
  refine ⟨hxy, ?_⟩
  unfold atmosphere
  simp only [hxy, if_true]

/-- C1, at a concrete input: from `(0, 7000e3, 0)` looking along `(0, 0, -1)` the Earth
atmosphere is missed and the result is black. -/
theorem atmosphere_zero_of_miss_witness :
    rsi_d (⟨0, 7000e3, 0⟩ : vec3 ℝ) (normalize Real.sqrt ⟨0, 0, -1⟩) 6471e3 < 0 ∧
    ATMOSPHERE_EARTH (atmosphere Real.sqrt Real.exp Real.rpow
      (⟨0, 7000e3, 0⟩ : vec3 ℝ) ⟨0, 0, -1⟩ ⟨0, 1, -1⟩) = ⟨0, 0, 0⟩ :=
  have hd : rsi_d (⟨0, 7000e3, 0⟩ : vec3 ℝ) (normalize Real.sqrt ⟨0, 0, -1⟩) 6471e3 < 0 := by
    simp only [rsi_d_eq, normalize, length, mul, dot]
    norm_num
  ⟨hd, (atmosphere_zero_of_miss _ _ _ _ _ _ _ _ _ _ _ hd).2⟩

/-! ## Exposure tone map -/

theorem one_lit : (1.0 : ℝ) = 1 := by norm_num

/-- The tone curve `1 - e^(-c)` on one channel: range, zero and strict monotonicity. -/
theorem tone_facts (c : ℝ) (hc : 0 ≤ c) :
    0 ≤ 1.0 - Real.exp (-c) ∧ 1.0 - Real.exp (-c) < 1 ∧ (1.0 - Real.exp (-c) = 0 → c = 0) := by
  rw [one_lit]
  have hpos := Real.exp_pos (-c)
  have hle : Real.exp (-c) ≤ 1 := Real.exp_le_one_iff.mpr (by linarith)
  refine ⟨by linarith, by linarith, fun h0 => ?_⟩
  have h1 : Real.exp (-c) = 1 := by linarith
  have : -c = 0 := Real.exp_eq_one_iff (-c) |>.mp h1
  linarith

theorem tone_strictMono (c c' : ℝ) (h : c < c') :
    1.0 - Real.exp (-c) < 1.0 - Real.exp (-c') := by
  have : Real.exp (-c') < Real.exp (-c) := Real.exp_lt_exp.mpr (by linarith)
  linarith

theorem length_eq_sqrt_dot (a : vec3 ℝ) : length Real.sqrt a = Real.sqrt (dot a a) := rfl

/-- Cauchy-Schwarz for `dot`. -/
theorem dot_sq_le (a b : vec3 ℝ) : dot a b * dot a b ≤ dot a a * dot b b := by
  unfold dot
  nlinarith [mul_self_nonneg (a.x * b.y - a.y * b.x), mul_self_nonneg (a.y * b.z - a.z * b.y),
    mul_self_nonneg (a.z * b.x - a.x * b.z)]

theorem dot_mul_mul (a b : vec3 ℝ) (k m : ℝ) : dot (mul a k) (mul b m) = k * m * dot a b := by
  unfold dot mul; ring

/-- A normalised non-zero vector has unit squared length. -/
theorem dot_normalize_self {a : vec3 ℝ} (h : a ≠ ⟨0, 0, 0⟩) :
    dot (normalize Real.sqrt a) (normalize Real.sqrt a) = 1 := by
  have hp := dot_self_pos h
  have hs : Real.sqrt (dot a a) * Real.sqrt (dot a a) = dot a a := Real.mul_self_sqrt hp.le
  have hs0 : Real.sqrt (dot a a) ≠ 0 := (Real.sqrt_pos.mpr hp).ne.symm
  unfold normalize
  rw [dot_mul_mul, length_eq_sqrt_dot]
  field_simp

theorem normalize_ne_zero {a : vec3 ℝ} (h : a ≠ ⟨0, 0, 0⟩) :
    normalize Real.sqrt a ≠ ⟨0, 0, 0⟩ := by
  intro h0
  have := dot_normalize_self h
  rw [h0] at this
  simp [dot] at this

/-- The cosine `mu` between two normalised non-zero directions has `mu^2 ≤ 1`. -/
theorem mu_sq_le_one {rd pSun : vec3 ℝ} (hrd : rd ≠ ⟨0, 0, 0⟩) (hsun : pSun ≠ ⟨0, 0, 0⟩) :
    dot (normalize Real.sqrt rd) (normalize Real.sqrt pSun)
      * dot (normalize Real.sqrt rd) (normalize Real.sqrt pSun) ≤ 1 := by
  have h := dot_sq_le (normalize Real.sqrt rd) (normalize Real.sqrt pSun)
  rw [dot_normalize_self hrd, dot_normalize_self hsun] at h
  linarith

theorem PI_pos : (0 : ℝ) < PI := by unfold PI; norm_num

theorem pRlhOf_pos (mu : ℝ) : 0 < pRlhOf mu := by
  unfold pRlhOf
  have := PI_pos
  have h1 : (0 : ℝ) < 1.0 + mu * mu := by
    rw [one_lit]; nlinarith [mul_self_nonneg mu]
  have h2 : (0 : ℝ) < 3.0 / (16.0 * PI) := by
    apply div_pos (by norm_num)
    apply mul_pos (by norm_num) this
  exact mul_pos h2 h1

/-- The base of the `1.5` power in `pMie` is at least `1 - mu^2`. -/
theorem pMie_base_ge (mu g : ℝ) : 1 - mu * mu ≤ 1.0 + g * g - 2.0 * mu * g := by
  rw [one_lit, two_lit]
  nlinarith [mul_self_nonneg (g - mu)]

theorem pMieOf_nonneg (mu g : ℝ) (hmu : mu * mu ≤ 1) (hg : g * g ≤ 1) :
    0 ≤ pMieOf Real.rpow mu g := by
  unfold pMieOf
  have hpi := PI_pos
  have hb : (0 : ℝ) ≤ 1.0 + g * g - 2.0 * mu * g := by
    have := pMie_base_ge mu g; linarith
  apply div_nonneg
  · apply mul_nonneg
    · apply div_nonneg (by norm_num)
      apply mul_nonneg (by norm_num) hpi.le
    · apply mul_nonneg
      · rw [one_lit]; linarith
      · rw [one_lit]; nlinarith [mul_self_nonneg mu]
  · apply mul_nonneg (Real.rpow_nonneg hb _)
    rw [two_lit]; nlinarith [mul_self_nonneg g]

/-! ## The primary loop: sign of the accumulated scattering -/

/-- With a non-negative primary step, one pass of the loop body keeps the six scattering
totals non-negative. -/
theorem iBody_totals_nonneg (r0 rd pSun : vec3 ℝ) (rPlanet rAtmos : ℝ) (kRlh : vec3 ℝ)
    (kMie shRlh shMie iStepSize : ℝ) (hstep : 0 ≤ iStepSize) (s : iState ℝ)
    (hs : (0 ≤ s.totalRlh.x ∧ 0 ≤ s.totalRlh.y ∧ 0 ≤ s.totalRlh.z) ∧
      (0 ≤ s.totalMie.x ∧ 0 ≤ s.totalMie.y ∧ 0 ≤ s.totalMie.z)) :
    (0 ≤ (iBody Real.sqrt Real.exp r0 rd pSun rPlanet rAtmos kRlh kMie shRlh shMie
            iStepSize s).totalRlh.x ∧
      0 ≤ (iBody Real.sqrt Real.exp r0 rd pSun rPlanet rAtmos kRlh kMie shRlh shMie
            iStepSize s).totalRlh.y ∧
      0 ≤ (iBody Real.sqrt Real.exp r0 rd pSun rPlanet rAtmos kRlh kMie shRlh shMie
            iStepSize s).totalRlh.z) ∧
    (0 ≤ (iBody Real.sqrt Real.exp r0 rd pSun rPlanet rAtmos kRlh kMie shRlh shMie
            iStepSize s).totalMie.x ∧
      0 ≤ (iBody Real.sqrt Real.exp r0 rd pSun rPlanet rAtmos kRlh kMie shRlh shMie
            iStepSize s).totalMie.y ∧
      0 ≤ (iBody Real.sqrt Real.exp r0 rd pSun rPlanet rAtmos kRlh kMie shRlh shMie
            iStepSize s).totalMie.z) := by
  obtain ⟨⟨h1, h2, h3⟩, h4, h5, h6⟩ := hs
  simp only [iBody, add, mul]
  refine ⟨⟨?_, ?_, ?_⟩, ?_, ?_, ?_⟩ <;>
    exact add_nonneg (by assumption)
      (mul_nonneg (Real.exp_pos _).le (mul_nonneg (Real.exp_pos _).le hstep))

/-- With a non-negative primary step the six scattering totals are non-negative after any
number of passes of the primary loop. -/
theorem iterate_totals_nonneg (r0 rd pSun : vec3 ℝ) (rPlanet rAtmos : ℝ) (kRlh : vec3 ℝ)
    (kMie shRlh shMie iStepSize : ℝ) (hstep : 0 ≤ iStepSize) (n : Nat) :
    (0 ≤ ((iBody Real.sqrt Real.exp r0 rd pSun rPlanet rAtmos kRlh kMie shRlh shMie
            iStepSize)^[n] ⟨0.0, ⟨0, 0, 0⟩, ⟨0, 0, 0⟩, 0.0, 0.0⟩).totalRlh.x ∧
      0 ≤ ((iBody Real.sqrt Real.exp r0 rd pSun rPlanet rAtmos kRlh kMie shRlh shMie
            iStepSize)^[n] ⟨0.0, ⟨0, 0, 0⟩, ⟨0, 0, 0⟩, 0.0, 0.0⟩).totalRlh.y ∧
      0 ≤ ((iBody Real.sqrt Real.exp r0 rd pSun rPlanet rAtmos kRlh kMie shRlh shMie
            iStepSize)^[n] ⟨0.0, ⟨0, 0, 0⟩, ⟨0, 0, 0⟩, 0.0, 0.0⟩).totalRlh.z) ∧
    (0 ≤ ((iBody Real.sqrt Real.exp r0 rd pSun rPlanet rAtmos kRlh kMie shRlh shMie
            iStepSize)^[n] ⟨0.0, ⟨0, 0, 0⟩, ⟨0, 0, 0⟩, 0.0, 0.0⟩).totalMie.x ∧
      0 ≤ ((iBody Real.sqrt Real.exp r0 rd pSun rPlanet rAtmos kRlh kMie shRlh shMie
            iStepSize)^[n] ⟨0.0, ⟨0, 0, 0⟩, ⟨0, 0, 0⟩, 0.0, 0.0⟩).totalMie.y ∧
      0 ≤ ((iBody Real.sqrt Real.exp r0 rd pSun rPlanet rAtmos kRlh kMie shRlh shMie
            iStepSize)^[n] ⟨0.0, ⟨0, 0, 0⟩, ⟨0, 0, 0⟩, 0.0, 0.0⟩).totalMie.z) := by
  induction n with
  | zero => simp
  | succ n ih =>
    rw [Function.iterate_succ_apply']
    exact iBody_totals_nonneg _ _ _ _ _ _ _ _ _ _ hstep _ ih

/-- With a positive primary step the Rayleigh totals are positive once the loop body has
run at least once. -/
theorem iterate_totalRlh_pos (r0 rd pSun : vec3 ℝ) (rPlanet rAtmos : ℝ) (kRlh : vec3 ℝ)
    (kMie shRlh shMie iStepSize : ℝ) (hstep : 0 < iStepSize) (n : Nat) :
    0 < ((iBody Real.sqrt Real.exp r0 rd pSun rPlanet rAtmos kRlh kMie shRlh shMie
            iStepSize)^[n + 1] ⟨0.0, ⟨0, 0, 0⟩, ⟨0, 0, 0⟩, 0.0, 0.0⟩).totalRlh.x ∧
    0 < ((iBody Real.sqrt Real.exp r0 rd pSun rPlanet rAtmos kRlh kMie shRlh shMie
            iStepSize)^[n + 1] ⟨0.0, ⟨0, 0, 0⟩, ⟨0, 0, 0⟩, 0.0, 0.0⟩).totalRlh.y ∧
    0 < ((iBody Real.sqrt Real.exp r0 rd pSun rPlanet rAtmos kRlh kMie shRlh shMie
            iStepSize)^[n + 1] ⟨0.0, ⟨0, 0, 0⟩, ⟨0, 0, 0⟩, 0.0, 0.0⟩).totalRlh.z := by
  rw [Function.iterate_succ_apply']
  obtain ⟨⟨h1, h2, h3⟩, -⟩ :=
    iterate_totals_nonneg r0 rd pSun rPlanet rAtmos kRlh kMie shRlh shMie iStepSize hstep.le n
  simp only [iBody, add, mul]
  refine ⟨?_, ?_, ?_⟩ <;>
    exact add_pos_of_nonneg_of_pos (by assumption)
      (mul_pos (Real.exp_pos _) (mul_pos (Real.exp_pos _) hstep))

/-- With a non-negative primary step the six scattering totals left by the primary loop are
non-negative. -/
theorem iLoop_totals_nonneg (r0 rd pSun : vec3 ℝ) (rPlanet rAtmos : ℝ) (kRlh : vec3 ℝ)
    (kMie shRlh shMie iStepSize : ℝ) (hstep : 0 ≤ iStepSize) :
    (0 ≤ (iLoop Real.sqrt Real.exp r0 rd pSun rPlanet rAtmos kRlh kMie shRlh shMie
            iStepSize).totalRlh.x ∧
      0 ≤ (iLoop Real.sqrt Real.exp r0 rd pSun rPlanet rAtmos kRlh kMie shRlh shMie
            iStepSize).totalRlh.y ∧
      0 ≤ (iLoop Real.sqrt Real.exp r0 rd pSun rPlanet rAtmos kRlh kMie shRlh shMie
            iStepSize).totalRlh.z) ∧
    (0 ≤ (iLoop Real.sqrt Real.exp r0 rd pSun rPlanet rAtmos kRlh kMie shRlh shMie
            iStepSize).totalMie.x ∧
      0 ≤ (iLoop Real.sqrt Real.exp r0 rd pSun rPlanet rAtmos kRlh kMie shRlh shMie
            iStepSize).totalMie.y ∧
      0 ≤ (iLoop Real.sqrt Real.exp r0 rd pSun rPlanet rAtmos kRlh kMie shRlh shMie
            iStepSize).totalMie.z) :=
  iterate_totals_nonneg r0 rd pSun rPlanet rAtmos kRlh kMie shRlh shMie iStepSize hstep ISTEPS

/-- With a positive primary step the Rayleigh totals left by the primary loop are
positive. -/
theorem iLoop_totalRlh_pos (r0 rd pSun : vec3 ℝ) (rPlanet rAtmos : ℝ) (kRlh : vec3 ℝ)
    (kMie shRlh shMie iStepSize : ℝ) (hstep : 0 < iStepSize) :
    0 < (iLoop Real.sqrt Real.exp r0 rd pSun rPlanet rAtmos kRlh kMie shRlh shMie
            iStepSize).totalRlh.x ∧
    0 < (iLoop Real.sqrt Real.exp r0 rd pSun rPlanet rAtmos kRlh kMie shRlh shMie
            iStepSize).totalRlh.y ∧
    0 < (iLoop Real.sqrt Real.exp r0 rd pSun rPlanet rAtmos kRlh kMie shRlh shMie
            iStepSize).totalRlh.z :=
  iterate_totalRlh_pos r0 rd pSun rPlanet rAtmos kRlh kMie shRlh shMie iStepSize hstep 15

/-- On the hit branch (`p.x ≤ p.y`) `atmosphere` returns the final colour of lines 154-158. -/
theorem atmosphere_of_hit (r0 rd pSun : vec3 ℝ) (iSun rPlanet rAtmos : ℝ) (kRlh : vec3 ℝ)
    (kMie shRlh shMie g : ℝ)
    (h : (rsi Real.sqrt r0 (normalize Real.sqrt rd) rAtmos).x
      ≤ (rsi Real.sqrt r0 (normalize Real.sqrt rd) rAtmos).y) :
    atmosphere Real.sqrt Real.exp Real.rpow r0 rd pSun iSun rPlanet rAtmos kRlh kMie
        shRlh shMie g
      = ⟨iSun * (pRlhOf (dot (normalize Real.sqrt rd) (normalize Real.sqrt pSun)) * kRlh.x *
            (iLoop Real.sqrt Real.exp r0 (normalize Real.sqrt rd) (normalize Real.sqrt pSun)
              rPlanet rAtmos kRlh kMie shRlh shMie
              (iStepSizeOf Real.sqrt r0 (normalize Real.sqrt rd) rPlanet rAtmos)).totalRlh.x
          + pMieOf Real.rpow (dot (normalize Real.sqrt rd) (normalize Real.sqrt pSun)) g * kMie *
            (iLoop Real.sqrt Real.exp r0 (normalize Real.sqrt rd) (normalize Real.sqrt pSun)
              rPlanet rAtmos kRlh kMie shRlh shMie
              (iStepSizeOf Real.sqrt r0 (normalize Real.sqrt rd) rPlanet rAtmos)).totalMie.x),
         iSun * (pRlhOf (dot (normalize Real.sqrt rd) (normalize Real.sqrt pSun)) * kRlh.y *
            (iLoop Real.sqrt Real.exp r0 (normalize Real.sqrt rd) (normalize Real.sqrt pSun)
              rPlanet rAtmos kRlh kMie shRlh shMie
              (iStepSizeOf Real.sqrt r0 (normalize Real.sqrt rd) rPlanet rAtmos)).totalRlh.y
          + pMieOf Real.rpow (dot (normalize Real.sqrt rd) (normalize Real.sqrt pSun)) g * kMie *
            (iLoop Real.sqrt Real.exp r0 (normalize Real.sqrt rd) (normalize Real.sqrt pSun)
              rPlanet rAtmos kRlh kMie shRlh shMie
              (iStepSizeOf Real.sqrt r0 (normalize Real.sqrt rd) rPlanet rAtmos)).totalMie.y),
         iSun * (pRlhOf (dot (normalize Real.sqrt rd) (normalize Real.sqrt pSun)) * kRlh.z *
            (iLoop Real.sqrt Real.exp r0 (normalize Real.sqrt rd) (normalize Real.sqrt pSun)
              rPlanet rAtmos kRlh kMie shRlh shMie
              (iStepSizeOf Real.sqrt r0 (normalize Real.sqrt rd) rPlanet rAtmos)).totalRlh.z
          + pMieOf Real.rpow (dot (normalize Real.sqrt rd) (normalize Real.sqrt pSun)) g * kMie *
            (iLoop Real.sqrt Real.exp r0 (normalize Real.sqrt rd) (normalize Real.sqrt pSun)
              rPlanet rAtmos kRlh kMie shRlh shMie
              (iStepSizeOf Real.sqrt r0 (normalize Real.sqrt rd) rPlanet rAtmos)).totalMie.z)⟩ := by
  unfold atmosphere
  simp only [gt_iff_lt, not_lt.mpr h, if_false]

/-- Every channel of `atmosphere` is non-negative as soon as the sun intensity and the
scattering coefficients are non-negative, `g^2 ≤ 1`, both directions are non-zero and the
primary step size is non-negative. -/
theorem atmosphere_nonneg_of_step (r0 rd pSun : vec3 ℝ) (iSun rPlanet rAtmos : ℝ)
    (kRlh : vec3 ℝ) (kMie shRlh shMie g : ℝ)
    (hrd : rd ≠ ⟨0, 0, 0⟩) (hsun : pSun ≠ ⟨0, 0, 0⟩)
    (hI : 0 ≤ iSun) (hkx : 0 ≤ kRlh.x) (hky : 0 ≤ kRlh.y) (hkz : 0 ≤ kRlh.z) (hkM : 0 ≤ kMie)
    (hg : g * g ≤ 1)
    (hstep : 0 ≤ iStepSizeOf Real.sqrt r0 (normalize Real.sqrt rd) rPlanet rAtmos) :
    0 ≤ (atmosphere Real.sqrt Real.exp Real.rpow r0 rd pSun iSun rPlanet rAtmos kRlh kMie
        shRlh shMie g).x ∧
    0 ≤ (atmosphere Real.sqrt Real.exp Real.rpow r0 rd pSun iSun rPlanet rAtmos kRlh kMie
        shRlh shMie g).y ∧
    0 ≤ (atmosphere Real.sqrt Real.exp Real.rpow r0 rd pSun iSun rPlanet rAtmos kRlh kMie
        shRlh shMie g).z := by
  by_cases h : (rsi Real.sqrt r0 (normalize Real.sqrt rd) rAtmos).x
      ≤ (rsi Real.sqrt r0 (normalize Real.sqrt rd) rAtmos).y
  · rw [atmosphere_of_hit _ _ _ _ _ _ _ _ _ _ _ h]
    have hR := (pRlhOf_pos (dot (normalize Real.sqrt rd) (normalize Real.sqrt pSun))).le
    have hM := pMieOf_nonneg _ g (mu_sq_le_one hrd hsun) hg
    have hT := iLoop_totals_nonneg r0 (normalize Real.sqrt rd) (normalize Real.sqrt pSun)
      rPlanet rAtmos kRlh kMie shRlh shMie _ hstep
    generalize iLoop Real.sqrt Real.exp r0 (normalize Real.sqrt rd) (normalize Real.sqrt pSun)
      rPlanet rAtmos kRlh kMie shRlh shMie _ = S at hT ⊢
    obtain ⟨⟨h1, h2, h3⟩, h4, h5, h6⟩ := hT
    dsimp only
    refine ⟨?_, ?_, ?_⟩ <;>
      exact mul_nonneg hI (add_nonneg (mul_nonneg (mul_nonneg hR (by assumption)) (by assumption))
        (mul_nonneg (mul_nonneg hM hkM) (by assumption)))
  · have h' : (rsi Real.sqrt r0 (normalize Real.sqrt rd) rAtmos).x
        > (rsi Real.sqrt r0 (normalize Real.sqrt rd) rAtmos).y := not_le.mp h
    unfold atmosphere
    simp only [h', if_true, le_refl, and_self]

/-! ## The primary step size -/

theorem le_min_of_le {a b c : ℝ} (ha : c ≤ a) (hb : c ≤ b) : c ≤ Atmosphere.min a b := by
  unfold Atmosphere.min
  split <;> assumption

/-- The discriminant grows with the radius of the sphere. -/
theorem rsi_d_mono (r0 rd : vec3 ℝ) (rP rA : ℝ) (h : rP * rP ≤ rA * rA) :
    rsi_d r0 rd rP ≤ rsi_d r0 rd rA := by
  rw [rsi_d_eq, rsi_d_eq, two_lit, four_lit]
  nlinarith [dot_self_nonneg rd, mul_nonneg (dot_self_nonneg rd) (sub_nonneg.mpr h)]

/-- If the line hits the planet, the clamped far bound is not before the atmosphere's near
distance: the primary step size is non-negative. -/
theorem iStepSize_nonneg_of_planet_hit (r0 rd : vec3 ℝ) (rPlanet rAtmos : ℝ)
    (hrd : rd ≠ ⟨0, 0, 0⟩) (hP : 0 ≤ rsi_d r0 rd rPlanet)
    (hr : rPlanet * rPlanet ≤ rAtmos * rAtmos) :
    0 ≤ iStepSizeOf Real.sqrt r0 rd rPlanet rAtmos := by
  have hmono := rsi_d_mono r0 rd rPlanet rAtmos hr
  have hA : 0 ≤ rsi_d r0 rd rAtmos := le_trans hP hmono
  have hxy := rsi_x_le_y r0 rd rAtmos hrd hA
  have hsq := Real.sqrt_le_sqrt hmono
  have ha : 0 < 2.0 * dot rd rd := by
    rw [two_lit]; have := dot_self_pos hrd; positivity
  have hq : (rsi Real.sqrt r0 rd rAtmos).x ≤ (rsi Real.sqrt r0 rd rPlanet).x := by
    rw [rsi_of_nonneg r0 rd rAtmos hA, rsi_of_nonneg r0 rd rPlanet hP]
    show _ / _ ≤ _ / _
    apply div_le_div_of_nonneg_right _ ha.le
    linarith
  unfold iStepSizeOf farBound
  apply div_nonneg _ (by unfold ISTEPS; norm_num)
  linarith [le_min_of_le hxy hq]

/-- If the origin is inside (or on) the atmosphere sphere, the primary step size is
non-negative, whether or not the line hits the planet. -/
theorem iStepSize_nonneg_of_inside (r0 rd : vec3 ℝ) (rPlanet rAtmos : ℝ)
    (hrd : rd ≠ ⟨0, 0, 0⟩) (hin : dot r0 r0 ≤ rAtmos * rAtmos)
    (hr : rPlanet * rPlanet ≤ rAtmos * rAtmos) :
    0 ≤ iStepSizeOf Real.sqrt r0 rd rPlanet rAtmos := by
  by_cases hP : 0 ≤ rsi_d r0 rd rPlanet
  · exact iStepSize_nonneg_of_planet_hit r0 rd rPlanet rAtmos hrd hP hr
  · have hP' : rsi_d r0 rd rPlanet < 0 := not_le.mp hP
    have hpos := dot_self_pos hrd
    have hbb : (2.0 * dot rd r0) * (2.0 * dot rd r0) ≤ rsi_d r0 rd rAtmos := by
      rw [rsi_d_eq, four_lit]
      nlinarith [mul_nonneg hpos.le (sub_nonneg.mpr hin)]
    have hA : 0 ≤ rsi_d r0 rd rAtmos := le_trans (mul_self_nonneg _) hbb
    have hxy := rsi_x_le_y r0 rd rAtmos hrd hA
    have habs : |2.0 * dot rd r0| ≤ Real.sqrt (rsi_d r0 rd rAtmos) := by
      apply Real.abs_le_sqrt
      rw [pow_two]; exact hbb
    have ha : 0 < 2.0 * dot rd rd := by
      rw [two_lit]; positivity
    have hx0 : (rsi Real.sqrt r0 rd rAtmos).x ≤ 0 := by
      rw [rsi_of_nonneg r0 rd rAtmos hA]
      show _ / _ ≤ 0
      apply div_nonpos_of_nonpos_of_nonneg _ ha.le
      linarith [neg_abs_le (2.0 * dot rd r0)]
    have hq : (rsi Real.sqrt r0 rd rAtmos).x ≤ (rsi Real.sqrt r0 rd rPlanet).x := by
      rw [rsi_of_neg r0 rd rPlanet hP']
      show _ ≤ (1e5 : ℝ)
      linarith [show (0 : ℝ) ≤ 1e5 by norm_num]
    unfold iStepSizeOf farBound
    apply div_nonneg _ (by unfold ISTEPS; norm_num)
    linarith [le_min_of_le hxy hq]

/-! ## The driver: range of the printed channels -/

/-- A value in `[0, 255]` is rounded to an integer in `[0, 255]`. -/
theorem round_range (v : ℝ) (h0 : 0 ≤ v) (h1 : v ≤ 255) :
    0 ≤ Atmosphere.round v ∧ Atmosphere.round v ≤ 255 := by
  unfold Atmosphere.round
  rw [if_pos h0]
  constructor
  · exact Int.floor_nonneg.mpr (by linarith)
  · have : Int.floor (v + 1 / 2) < 256 := by
      rw [Int.floor_lt]; push_cast; linarith
    omega

/-- One channel of the driver: a non-negative radiance is printed as an integer in
`[0, 255]`. -/
theorem channel_range (c : ℝ) (hc : 0 ≤ c) :
    0 ≤ Atmosphere.round ((1.0 - Real.exp (-c)) * 255) ∧
    Atmosphere.round ((1.0 - Real.exp (-c)) * 255) ≤ 255 := by
  obtain ⟨h0, h1, -⟩ := tone_facts c hc
  exact round_range _ (by positivity) (by linarith)

theorem earth_g_sq : (0.758 : ℝ) * 0.758 ≤ 1 := by norm_num

theorem earth_radii : (6371e3 : ℝ) * 6371e3 ≤ 6471e3 * 6471e3 := by norm_num

/-- C8: every channel printed by the driver is an integer in `[0, 255]`: for the origin
`(0, 6372e3, 0)`, the sun direction `(0, 1, -1)`, the Earth preset and every direction
`rd = (x, y, -1)`, each component of `round(255 * expose(atmosphere(...)))` lies between 0
and 255; in particular this holds for the direction of every pixel `(ix, iy)`. -/
theorem shade_range :
    (∀ x y : ℝ,
      (0 ≤ (shade Real.sqrt Real.exp Real.rpow ⟨x, y, -1⟩).1 ∧
        (shade Real.sqrt Real.exp Real.rpow ⟨x, y, -1⟩).1 ≤ 255) ∧
      (0 ≤ (shade Real.sqrt Real.exp Real.rpow ⟨x, y, -1⟩).2.1 ∧
        (shade Real.sqrt Real.exp Real.rpow ⟨x, y, -1⟩).2.1 ≤ 255) ∧
      (0 ≤ (shade Real.sqrt Real.exp Real.rpow ⟨x, y, -1⟩).2.2 ∧
        (shade Real.sqrt Real.exp Real.rpow ⟨x, y, -1⟩).2.2 ≤ 255)) ∧
    (∀ ix iy : Nat,
      (0 ≤ (pixel Real.sqrt Real.exp Real.rpow ix iy).1 ∧
        (pixel Real.sqrt Real.exp Real.rpow ix iy).1 ≤ 255) ∧
      (0 ≤ (pixel Real.sqrt Real.exp Real.rpow ix iy).2.1 ∧
        (pixel Real.sqrt Real.exp Real.rpow ix iy).2.1 ≤ 255) ∧
      (0 ≤ (pixel Real.sqrt Real.exp Real.rpow ix iy).2.2 ∧
        (pixel Real.sqrt Real.exp Real.rpow ix iy).2.2 ≤ 255)) := by
  have main : ∀ x y : ℝ,
      (0 ≤ (shade Real.sqrt Real.exp Real.rpow ⟨x, y, -1⟩).1 ∧
        (shade Real.sqrt Real.exp Real.rpow ⟨x, y, -1⟩).1 ≤ 255) ∧
      (0 ≤ (shade Real.sqrt Real.exp Real.rpow ⟨x, y, -1⟩).2.1 ∧
        (shade Real.sqrt Real.exp Real.rpow ⟨x, y, -1⟩).2.1 ≤ 255) ∧
      (0 ≤ (shade Real.sqrt Real.exp Real.rpow ⟨x, y, -1⟩).2.2 ∧
        (shade Real.sqrt Real.exp Real.rpow ⟨x, y, -1⟩).2.2 ≤ 255) := by
    intro x y
    have hrd : (⟨x, y, -1⟩ : vec3 ℝ) ≠ ⟨0, 0, 0⟩ := by simp [vec3_ext_iff]
    have hsun : (⟨0, SUN_HEIGHT, -1⟩ : vec3 ℝ) ≠ ⟨0, 0, 0⟩ := by simp [vec3_ext_iff]
    have hin : dot (⟨0, 6372e3, 0⟩ : vec3 ℝ) ⟨0, 6372e3, 0⟩ ≤ 6471e3 * 6471e3 := by
      simp only [dot]; norm_num
    have hstep := iStepSize_nonneg_of_inside ⟨0, 6372e3, 0⟩ (normalize Real.sqrt ⟨x, y, -1⟩)
      6371e3 6471e3 (normalize_ne_zero hrd) hin earth_radii
    obtain ⟨hx, hy, hz⟩ := atmosphere_nonneg_of_step ⟨0, 6372e3, 0⟩ ⟨x, y, -1⟩
      ⟨0, SUN_HEIGHT, -1⟩ 22.0 6371e3 6471e3 ⟨5.5e-6, 13.0e-6, 22.4e-6⟩ 21e-6 8e3 1.2e3 0.758
      hrd hsun (by norm_num) (by norm_num) (by norm_num) (by norm_num) (by norm_num)
      earth_g_sq hstep
    exact ⟨channel_range _ hx, channel_range _ hy, channel_range _ hz⟩
  exact ⟨main, fun ix iy => main _ _⟩

/-! ## Looking straight down -/

theorem rsi_d_strictMono (r0 rd : vec3 ℝ) (rP rA : ℝ) (hrd : rd ≠ ⟨0, 0, 0⟩)
    (h : rP * rP < rA * rA) : rsi_d r0 rd rP < rsi_d r0 rd rA := by
  rw [rsi_d_eq, rsi_d_eq, two_lit, four_lit]
  nlinarith [dot_self_pos hrd, mul_pos (dot_self_pos hrd) (sub_pos.mpr h)]

/-- If the line hits the planet and the atmosphere is strictly larger than the planet, the
primary step size is positive, also when both intersections lie behind the origin. -/
theorem iStepSize_pos_of_planet_hit (r0 rd : vec3 ℝ) (rPlanet rAtmos : ℝ)
    (hrd : rd ≠ ⟨0, 0, 0⟩) (hP : 0 ≤ rsi_d r0 rd rPlanet)
    (hr : rPlanet * rPlanet < rAtmos * rAtmos) :
    0 < iStepSizeOf Real.sqrt r0 rd rPlanet rAtmos := by
  have hmono := rsi_d_strictMono r0 rd rPlanet rAtmos hrd hr
  have hA : 0 ≤ rsi_d r0 rd rAtmos := le_trans hP hmono.le
  have hApos : 0 < rsi_d r0 rd rAtmos := lt_of_le_of_lt hP hmono
  have hsq := Real.sqrt_lt_sqrt hP hmono
  have hsA := Real.sqrt_pos.mpr hApos
  have ha : 0 < 2.0 * dot rd rd := by
    rw [two_lit]; have := dot_self_pos hrd; positivity
  have hq : (rsi Real.sqrt r0 rd rAtmos).x < (rsi Real.sqrt r0 rd rPlanet).x := by
    rw [rsi_of_nonneg r0 rd rAtmos hA, rsi_of_nonneg r0 rd rPlanet hP]
    show _ / _ < _ / _
    apply div_lt_div_of_pos_right _ ha
    linarith
  have hxy : (rsi Real.sqrt r0 rd rAtmos).x < (rsi Real.sqrt r0 rd rAtmos).y := by
    rw [rsi_of_nonneg r0 rd rAtmos hA]
    show _ / _ < _ / _
    apply div_lt_div_of_pos_right _ ha
    linarith
  unfold iStepSizeOf farBound
  apply div_pos _ (by unfold ISTEPS; norm_num)
  unfold Atmosphere.min
  split <;> linarith

/-- On the hit branch every channel of `atmosphere` is strictly positive when the sun
intensity and the Rayleigh coefficients are positive, the Mie coefficient is non-negative,
`g^2 ≤ 1`, both directions are non-zero and the primary step size is positive. -/
theorem atmosphere_pos_of_step (r0 rd pSun : vec3 ℝ) (iSun rPlanet rAtmos : ℝ)
    (kRlh : vec3 ℝ) (kMie shRlh shMie g : ℝ)
    (hrd : rd ≠ ⟨0, 0, 0⟩) (hsun : pSun ≠ ⟨0, 0, 0⟩)
    (hI : 0 < iSun) (hkx : 0 < kRlh.x) (hky : 0 < kRlh.y) (hkz : 0 < kRlh.z) (hkM : 0 ≤ kMie)
    (hg : g * g ≤ 1)
    (hhit : (rsi Real.sqrt r0 (normalize Real.sqrt rd) rAtmos).x
      ≤ (rsi Real.sqrt r0 (normalize Real.sqrt rd) rAtmos).y)
    (hstep : 0 < iStepSizeOf Real.sqrt r0 (normalize Real.sqrt rd) rPlanet rAtmos) :
    0 < (atmosphere Real.sqrt Real.exp Real.rpow r0 rd pSun iSun rPlanet rAtmos kRlh kMie
        shRlh shMie g).x ∧
    0 < (atmosphere Real.sqrt Real.exp Real.rpow r0 rd pSun iSun rPlanet rAtmos kRlh kMie
        shRlh shMie g).y ∧
    0 < (atmosphere Real.sqrt Real.exp Real.rpow r0 rd pSun iSun rPlanet rAtmos kRlh kMie
        shRlh shMie g).z := by
  rw [atmosphere_of_hit _ _ _ _ _ _ _ _ _ _ _ hhit]
  have hR := pRlhOf_pos (dot (normalize Real.sqrt rd) (normalize Real.sqrt pSun))
  have hM := pMieOf_nonneg _ g (mu_sq_le_one hrd hsun) hg
  have hT := iLoop_totals_nonneg r0 (normalize Real.sqrt rd) (normalize Real.sqrt pSun)
    rPlanet rAtmos kRlh kMie shRlh shMie _ hstep.le
  have hU := iLoop_totalRlh_pos r0 (normalize Real.sqrt rd) (normalize Real.sqrt pSun)
    rPlanet rAtmos kRlh kMie shRlh shMie _ hstep
  generalize iLoop Real.sqrt Real.exp r0 (normalize Real.sqrt rd) (normalize Real.sqrt pSun)
    rPlanet rAtmos kRlh kMie shRlh shMie _ = S at hT hU ⊢
  obtain ⟨-, h4, h5, h6⟩ := hT
  obtain ⟨h1, h2, h3⟩ := hU
  dsimp only
  refine ⟨?_, ?_, ?_⟩ <;>
    exact mul_pos hI (add_pos_of_pos_of_nonneg (mul_pos (mul_pos hR (by assumption))
      (by assumption)) (mul_nonneg (mul_nonneg hM hkM) (by assumption)))

theorem normalize_unit_y : normalize Real.sqrt (⟨0, 1, 0⟩ : vec3 ℝ) = ⟨0, 1, 0⟩ := by
  simp [normalize, length, mul]

theorem normalize_unit_neg_z : normalize Real.sqrt (⟨0, 0, -1⟩ : vec3 ℝ) = ⟨0, 0, -1⟩ := by
  simp [normalize, length, mul]

/-- C6, the code at the failing input: the origin `(0, 6472e3, 0)` is outside the Earth
atmosphere and the view direction `(0, 1, 0)` points away from the planet centre, so that no
point `r0 + t*rd` with `t ≥ 0` is inside the atmosphere; `rsi` nevertheless reports the two
intersections behind the origin, the miss branch is not taken, and every channel of the
result is strictly positive instead of `0`. -/
theorem atmosphere_not_black_behind :
    (6471e3 : ℝ) * 6471e3 < dot (⟨0, 6472e3, 0⟩ : vec3 ℝ) ⟨0, 6472e3, 0⟩ ∧
    0 < dot (⟨0, 6472e3, 0⟩ : vec3 ℝ) ⟨0, 1, 0⟩ ∧
    (∀ t : ℝ, 0 ≤ t →
      (6471e3 : ℝ) * 6471e3 < dot (add (⟨0, 6472e3, 0⟩ : vec3 ℝ) (mul ⟨0, 1, 0⟩ t))
        (add (⟨0, 6472e3, 0⟩ : vec3 ℝ) (mul ⟨0, 1, 0⟩ t))) ∧
    0 < (ATMOSPHERE_EARTH (atmosphere Real.sqrt Real.exp Real.rpow (⟨0, 6472e3, 0⟩ : vec3 ℝ)
          ⟨0, 1, 0⟩ ⟨0, 1, -1⟩)).x ∧
    0 < (ATMOSPHERE_EARTH (atmosphere Real.sqrt Real.exp Real.rpow (⟨0, 6472e3, 0⟩ : vec3 ℝ)
          ⟨0, 1, 0⟩ ⟨0, 1, -1⟩)).y ∧
    0 < (ATMOSPHERE_EARTH (atmosphere Real.sqrt Real.exp Real.rpow (⟨0, 6472e3, 0⟩ : vec3 ℝ)
          ⟨0, 1, 0⟩ ⟨0, 1, -1⟩)).z ∧
    ATMOSPHERE_EARTH (atmosphere Real.sqrt Real.exp Real.rpow (⟨0, 6472e3, 0⟩ : vec3 ℝ)
          ⟨0, 1, 0⟩ ⟨0, 1, -1⟩) ≠ ⟨0, 0, 0⟩ := by
  have hrd : (⟨0, 1, 0⟩ : vec3 ℝ) ≠ ⟨0, 0, 0⟩ := by simp [vec3_ext_iff]
  have hsun : (⟨0, 1, -1⟩ : vec3 ℝ) ≠ ⟨0, 0, 0⟩ := by simp [vec3_ext_iff]
  have hP : 0 ≤ rsi_d (⟨0, 6472e3, 0⟩ : vec3 ℝ) (normalize Real.sqrt ⟨0, 1, 0⟩) 6371e3 := by
    rw [normalize_unit_y, rsi_d_eq]; simp only [dot]; norm_num
  have hA : 0 ≤ rsi_d (⟨0, 6472e3, 0⟩ : vec3 ℝ) (normalize Real.sqrt ⟨0, 1, 0⟩) 6471e3 := by
    rw [normalize_unit_y, rsi_d_eq]; simp only [dot]; norm_num
  have hhit := rsi_x_le_y _ _ _ (normalize_ne_zero hrd) hA
  have hstep := iStepSize_pos_of_planet_hit (⟨0, 6472e3, 0⟩ : vec3 ℝ)
    (normalize Real.sqrt ⟨0, 1, 0⟩) 6371e3 6471e3 (normalize_ne_zero hrd) hP (by norm_num)
  have hpos := atmosphere_pos_of_step ⟨0, 6472e3, 0⟩ ⟨0, 1, 0⟩ ⟨0, 1, -1⟩
    22.0 6371e3 6471e3 ⟨5.5e-6, 13.0e-6, 22.4e-6⟩ 21e-6 8e3 1.2e3 0.758
    hrd hsun (by norm_num) (by norm_num) (by norm_num) (by norm_num) (by norm_num)
    earth_g_sq hhit hstep
  refine ⟨by simp only [dot]; norm_num, by simp only [dot]; norm_num, ?_, hpos.1, hpos.2.1,
    hpos.2.2, ?_⟩
  · intro t ht
    simp only [dot, add, mul]
    norm_num
    nlinarith
  · intro h0
    have := hpos.1
    unfold ATMOSPHERE_EARTH at h0
    rw [h0] at this
    exact lt_irrefl _ this

/-! ## The secondary loop: bounds on the accumulated optical depth -/

theorem zero_lit : (0.0 : ℝ) = 0 := by norm_num

theorem half_lit : (0.5 : ℝ) = 1 / 2 := by norm_num

/-- With a non-negative secondary step both secondary optical depths are non-negative after
any number of passes. -/
theorem jBody_iterate_nonneg (iPos pSun : vec3 ℝ) (rPlanet shRlh shMie jStepSize : ℝ)
    (hj : 0 ≤ jStepSize) (n : Nat) :
    0 ≤ ((jBody Real.sqrt Real.exp iPos pSun rPlanet shRlh shMie jStepSize)^[n]
          ⟨0.0, 0.0, 0.0⟩).jOdRlh ∧
    0 ≤ ((jBody Real.sqrt Real.exp iPos pSun rPlanet shRlh shMie jStepSize)^[n]
          ⟨0.0, 0.0, 0.0⟩).jOdMie := by
  induction n with
  | zero => norm_num [Function.iterate_zero]
  | succ n ih =>
    rw [Function.iterate_succ_apply']
    simp only [jBody]
    exact ⟨add_nonneg ih.1 (mul_nonneg (Real.exp_pos _).le hj),
      add_nonneg ih.2 (mul_nonneg (Real.exp_pos _).le hj)⟩

/-- The secondary ray time after `n` passes is `n * jStepSize`. -/
theorem jBody_iterate_jTime (iPos pSun : vec3 ℝ) (rPlanet shRlh shMie jStepSize : ℝ) (n : Nat) :
    ((jBody Real.sqrt Real.exp iPos pSun rPlanet shRlh shMie jStepSize)^[n]
          ⟨0.0, 0.0, 0.0⟩).jTime = n * jStepSize := by
  induction n with
  | zero => norm_num [Function.iterate_zero]
  | succ n ih =>
    rw [Function.iterate_succ_apply']
    simp only [jBody]
    rw [ih]; push_cast; ring

/-- With a non-positive secondary step, if the density factor is at most `E` at each of the
first `N` sample points, the Rayleigh depth after `n ≤ N` passes is at least
`n * (E * jStepSize)`. -/
theorem jBody_iterate_lower (iPos pSun : vec3 ℝ) (rPlanet shRlh shMie jStepSize E : ℝ)
    (hj : jStepSize ≤ 0) (N : Nat)
    (hE : ∀ k : Nat, k < N →
      Real.exp (-(length Real.sqrt (add iPos (mul pSun (k * jStepSize + jStepSize * 0.5)))
        - rPlanet) / shRlh) ≤ E)
    (n : Nat) (hn : n ≤ N) :
    n * (E * jStepSize) ≤ ((jBody Real.sqrt Real.exp iPos pSun rPlanet shRlh shMie
        jStepSize)^[n] ⟨0.0, 0.0, 0.0⟩).jOdRlh := by
  induction n with
  | zero => norm_num [Function.iterate_zero]
  | succ n ih =>
    rw [Function.iterate_succ_apply']
    have ih' := ih (Nat.le_of_succ_le hn)
    have hk := hE n (Nat.lt_of_succ_le hn)
    have ht := jBody_iterate_jTime iPos pSun rPlanet shRlh shMie jStepSize n
    simp only [jBody]
    rw [ht]
    have := mul_le_mul_of_nonpos_right hk hj
    push_cast
    linarith

/-- If the secondary ray leaves the atmosphere ahead of the sample (`rsi(...).y ≥ 0`), the
secondary Rayleigh depth is non-negative. -/
theorem jLoop_jOdRlh_nonneg (iPos pSun : vec3 ℝ) (rPlanet rAtmos shRlh shMie : ℝ)
    (hy : 0 ≤ (rsi Real.sqrt iPos pSun rAtmos).y) :
    0 ≤ (jLoop Real.sqrt Real.exp iPos pSun rPlanet rAtmos shRlh shMie).jOdRlh := by
  unfold jLoop
  exact (jBody_iterate_nonneg iPos pSun rPlanet shRlh shMie _
    (div_nonneg hy (by unfold JSTEPS; norm_num)) JSTEPS).1

/-- For an origin inside (or on) the sphere and a non-zero direction, the far distance
returned by `rsi` is non-negative. -/
theorem rsi_y_nonneg_of_inside (r0 rd : vec3 ℝ) (sr : ℝ) (hrd : rd ≠ ⟨0, 0, 0⟩)
    (hin : dot r0 r0 ≤ sr * sr) : 0 ≤ (rsi Real.sqrt r0 rd sr).y := by
  have hpos := dot_self_pos hrd
  have hbb : (2.0 * dot rd r0) * (2.0 * dot rd r0) ≤ rsi_d r0 rd sr := by
    rw [rsi_d_eq, four_lit]
    nlinarith [mul_nonneg hpos.le (sub_nonneg.mpr hin)]
  have hA : 0 ≤ rsi_d r0 rd sr := le_trans (mul_self_nonneg _) hbb
  have habs : |2.0 * dot rd r0| ≤ Real.sqrt (rsi_d r0 rd sr) := by
    apply Real.abs_le_sqrt
    rw [pow_two]; exact hbb
  have ha : 0 < 2.0 * dot rd rd := by
    rw [two_lit]; positivity
  rw [rsi_of_nonneg r0 rd sr hA]
  show 0 ≤ _ / _
  apply div_nonneg _ ha.le
  linarith [le_abs_self (2.0 * dot rd r0)]

/-- For an origin outside the sphere whose secondary ray points away from it, with unit
direction: if `c ≤ Y (b - Y)` for the coefficients `b`, `c` of `rsi` and some `Y ≥ 0`, then
the far distance `y` lies in `[-Y, 0]`, and every point `iPos + τ*pSun` with `y ≤ τ` is
outside or on the sphere. -/
theorem rsi_y_outside (iPos pSun : vec3 ℝ) (rA Y : ℝ) (hunit : dot pSun pSun = 1)
    (hc : rA * rA < dot iPos iPos) (hY : 0 ≤ Y)
    (hYb : dot iPos iPos - rA * rA ≤ Y * (2 * dot pSun iPos - Y)) :
    -Y ≤ (rsi Real.sqrt iPos pSun rA).y ∧ (rsi Real.sqrt iPos pSun rA).y ≤ 0 ∧
    ∀ τ : ℝ, (rsi Real.sqrt iPos pSun rA).y ≤ τ →
      rA * rA ≤ dot (add iPos (mul pSun τ)) (add iPos (mul pSun τ)) := by
  have hb : 0 < 2 * dot pSun iPos := by nlinarith
  have hd : rsi_d iPos pSun rA
      = (2 * dot pSun iPos) * (2 * dot pSun iPos) - 4 * (dot iPos iPos - rA * rA) := by
    rw [rsi_d_eq, hunit, two_lit, four_lit]; ring
  have hd0 : 0 ≤ rsi_d iPos pSun rA := by
    rw [hd]; nlinarith [mul_self_nonneg (2 * dot pSun iPos - 2 * Y)]
  have hs : Real.sqrt (rsi_d iPos pSun rA) * Real.sqrt (rsi_d iPos pSun rA)
      = (2 * dot pSun iPos) * (2 * dot pSun iPos) - 4 * (dot iPos iPos - rA * rA) := by
    rw [Real.mul_self_sqrt hd0, hd]
  have hs0 := Real.sqrt_nonneg (rsi_d iPos pSun rA)
  have hsb : Real.sqrt (rsi_d iPos pSun rA) ≤ 2 * dot pSun iPos := by
    rw [Real.sqrt_le_iff]
    exact ⟨hb.le, by rw [hd]; nlinarith⟩
  have hsY : 2 * dot pSun iPos - 2 * Y ≤ Real.sqrt (rsi_d iPos pSun rA) := by
    apply Real.le_sqrt_of_sq_le
    rw [hd]; nlinarith
  have hyv : (rsi Real.sqrt iPos pSun rA).y
      = (-(2 * dot pSun iPos) + Real.sqrt (rsi_d iPos pSun rA)) / 2 := by
    rw [rsi_of_nonneg iPos pSun rA hd0, hunit, two_lit, mul_one]
  rw [hyv]
  refine ⟨by linarith, by linarith, fun τ hτ => ?_⟩
  have e := dot_ray iPos pSun rA τ
  rw [hunit, two_lit] at e
  have : 0 ≤ (τ - (-(2 * dot pSun iPos) - Real.sqrt (rsi_d iPos pSun rA)) / 2)
      * (τ - (-(2 * dot pSun iPos) + Real.sqrt (rsi_d iPos pSun rA)) / 2) :=
    mul_nonneg (by linarith) (by linarith)
  nlinarith [this, hs, e]

/-- For a sample outside the atmosphere whose sun ray points away from it, the secondary
Rayleigh depth is negative but small: at least `-(Y * exp(-(rAtmos - rPlanet)/shRlh))`. -/
theorem jLoop_jOdRlh_lower_outside (iPos pSun : vec3 ℝ) (rPlanet rAtmos shRlh shMie Y : ℝ)
    (hunit : dot pSun pSun = 1) (hc : rAtmos * rAtmos < dot iPos iPos) (hY : 0 ≤ Y)
    (hYb : dot iPos iPos - rAtmos * rAtmos ≤ Y * (2 * dot pSun iPos - Y))
    (hsh : 0 < shRlh) :
    -(Y * Real.exp (-(rAtmos - rPlanet) / shRlh))
      ≤ (jLoop Real.sqrt Real.exp iPos pSun rPlanet rAtmos shRlh shMie).jOdRlh := by
  obtain ⟨hy1, hy2, hq⟩ := rsi_y_outside iPos pSun rAtmos Y hunit hc hY hYb
  have hj : (rsi Real.sqrt iPos pSun rAtmos).y / (JSTEPS : ℝ) ≤ 0 :=
    div_nonpos_of_nonpos_of_nonneg hy2 (by unfold JSTEPS; norm_num)
  have hE : ∀ k : Nat, k < JSTEPS →
      Real.exp (-(length Real.sqrt (add iPos (mul pSun
        (k * ((rsi Real.sqrt iPos pSun rAtmos).y / (JSTEPS : ℝ))
          + (rsi Real.sqrt iPos pSun rAtmos).y / (JSTEPS : ℝ) * 0.5))) - rPlanet) / shRlh)
      ≤ Real.exp (-(rAtmos - rPlanet) / shRlh) := by
    intro k hk
    have hk' : (k : ℝ) ≤ 7 := by
      unfold JSTEPS at hk
      exact_mod_cast Nat.le_of_lt_succ hk
    have hk0 : (0 : ℝ) ≤ k := Nat.cast_nonneg k
    have hτ : (rsi Real.sqrt iPos pSun rAtmos).y
        ≤ k * ((rsi Real.sqrt iPos pSun rAtmos).y / (JSTEPS : ℝ))
          + (rsi Real.sqrt iPos pSun rAtmos).y / (JSTEPS : ℝ) * 0.5 := by
      unfold JSTEPS
      rw [half_lit]
      push_cast
      nlinarith
    have hlen : rAtmos ≤ length Real.sqrt (add iPos (mul pSun
        (k * ((rsi Real.sqrt iPos pSun rAtmos).y / (JSTEPS : ℝ))
          + (rsi Real.sqrt iPos pSun rAtmos).y / (JSTEPS : ℝ) * 0.5))) := by
      rw [length_eq_sqrt_dot]
      apply Real.le_sqrt_of_sq_le
      rw [pow_two]; exact hq _ hτ
    apply Real.exp_le_exp.mpr
    apply div_le_div_of_nonneg_right _ hsh.le
    linarith
  have hlow := jBody_iterate_lower iPos pSun rPlanet shRlh shMie _ _ hj JSTEPS hE JSTEPS
    (le_refl _)
  unfold jLoop
  refine le_trans ?_ hlow
  have hEpos := Real.exp_pos (-(rAtmos - rPlanet) / shRlh)
  have h8 : (JSTEPS : ℝ) = 8 := by unfold JSTEPS; norm_num
  rw [h8]
  nlinarith

/-! ## The primary loop: comparing two channels -/

/-- The attenuation of a channel with the larger Rayleigh coefficient `kz` is smaller than
that of a channel with coefficient `ky` by the factor `exp((kz - ky) * R)`. -/
theorem attn_dom (M R ky kz : ℝ) (hk : kz < ky * Real.exp ((kz - ky) * R)) :
    kz * Real.exp (-(M + kz * R)) < ky * Real.exp (-(M + ky * R)) := by
  have e : Real.exp (-(M + ky * R)) = Real.exp (-(M + kz * R)) * Real.exp ((kz - ky) * R) := by
    rw [← Real.exp_add]; congr 1; ring
  rw [e]
  have hpos := Real.exp_pos (-(M + kz * R))
  nlinarith

theorem attn_mono (M R ky kz : ℝ) (hk : 0 ≤ (kz - ky) * R) :
    Real.exp (-(M + kz * R)) ≤ Real.exp (-(M + ky * R)) := by
  apply Real.exp_le_exp.mpr
  linarith

/-- The arithmetic of one accumulation step for two channels with Rayleigh coefficients
`ky` and `kz`, common Mie exponent `M` and Rayleigh depth `R`. -/
theorem totals_step_dom (tRy tRz tMy tMz ky kz M R oR oM : ℝ) (hoR : 0 < oR) (hoM : 0 ≤ oM)
    (hR : kz < ky * Real.exp ((kz - ky) * R)) (hR0 : 0 ≤ (kz - ky) * R)
    (h1 : kz * tRz ≤ ky * tRy) (h2 : tMz ≤ tMy) :
    kz * (tRz + Real.exp (-(M + kz * R)) * oR) < ky * (tRy + Real.exp (-(M + ky * R)) * oR) ∧
    tMz + Real.exp (-(M + kz * R)) * oM ≤ tMy + Real.exp (-(M + ky * R)) * oM := by
  have hA := attn_dom M R ky kz hR
  have hB := attn_mono M R ky kz hR0
  constructor
  · have := mul_lt_mul_of_pos_right hA hoR
    linarith
  · have := mul_le_mul_of_nonneg_right hB hoM
    linarith

/-- The primary ray time after `n` passes is `n * iStepSize`. -/
theorem iBody_iterate_iTime (r0 rd pSun : vec3 ℝ) (rPlanet rAtmos : ℝ) (kRlh : vec3 ℝ)
    (kMie shRlh shMie iStepSize : ℝ) (n : Nat) :
    ((iBody Real.sqrt Real.exp r0 rd pSun rPlanet rAtmos kRlh kMie shRlh shMie
        iStepSize)^[n] ⟨0.0, ⟨0, 0, 0⟩, ⟨0, 0, 0⟩, 0.0, 0.0⟩).iTime = n * iStepSize := by
  induction n with
  | zero => norm_num [Function.iterate_zero]
  | succ n ih =>
    rw [Function.iterate_succ_apply']
    simp only [iBody]
    rw [ih]; push_cast; ring

/-- With a non-negative primary step the primary Rayleigh depth never decreases, so after
`n + 1` passes it is at least the first increment. -/
theorem iBody_iterate_iOdRlh_ge (r0 rd pSun : vec3 ℝ) (rPlanet rAtmos : ℝ) (kRlh : vec3 ℝ)
    (kMie shRlh shMie iStepSize : ℝ) (hstep : 0 ≤ iStepSize) (n : Nat) :
    Real.exp (-(length Real.sqrt (add r0 (mul rd (0.0 + iStepSize * 0.5))) - rPlanet) / shRlh)
        * iStepSize
      ≤ ((iBody Real.sqrt Real.exp r0 rd pSun rPlanet rAtmos kRlh kMie shRlh shMie
        iStepSize)^[n + 1] ⟨0.0, ⟨0, 0, 0⟩, ⟨0, 0, 0⟩, 0.0, 0.0⟩).iOdRlh := by
  induction n with
  | zero =>
    simp only [zero_add, Function.iterate_one, iBody]
    norm_num
  | succ n ih =>
    rw [Function.iterate_succ_apply']
    simp only [iBody] at ih ⊢
    have := mul_nonneg (Real.exp_pos (-(length Real.sqrt (add r0 (mul rd
      (((iBody Real.sqrt Real.exp r0 rd pSun rPlanet rAtmos kRlh kMie shRlh shMie
        iStepSize)^[n + 1] ⟨0.0, ⟨0, 0, 0⟩, ⟨0, 0, 0⟩, 0.0, 0.0⟩).iTime
          + iStepSize * 0.5))) - rPlanet) / shRlh)).le hstep
    linarith

/-- One pass of the primary loop keeps the second channel ahead of the third: if, for the
state entering the pass, the total Rayleigh depth `R` seen by the sample satisfies
`kRlh.z < kRlh.y * exp((kRlh.z - kRlh.y) * R)`, then the weighted Rayleigh total of the
second channel ends strictly above that of the third, and the Mie total does not fall
below. -/
theorem iBody_dom (r0 rd pSun : vec3 ℝ) (rPlanet rAtmos : ℝ) (kRlh : vec3 ℝ)
    (kMie shRlh shMie iStepSize : ℝ) (hstep : 0 < iStepSize) (s : iState ℝ)
    (hR : kRlh.z < kRlh.y * Real.exp ((kRlh.z - kRlh.y) *
      ((iBody Real.sqrt Real.exp r0 rd pSun rPlanet rAtmos kRlh kMie shRlh shMie
          iStepSize s).iOdRlh
        + (jLoop Real.sqrt Real.exp (add r0 (mul rd (s.iTime + iStepSize * 0.5))) pSun
            rPlanet rAtmos shRlh shMie).jOdRlh)))
    (hR0 : 0 ≤ (kRlh.z - kRlh.y) *
      ((iBody Real.sqrt Real.exp r0 rd pSun rPlanet rAtmos kRlh kMie shRlh shMie
          iStepSize s).iOdRlh
        + (jLoop Real.sqrt Real.exp (add r0 (mul rd (s.iTime + iStepSize * 0.5))) pSun
            rPlanet rAtmos shRlh shMie).jOdRlh))
    (h1 : kRlh.z * s.totalRlh.z ≤ kRlh.y * s.totalRlh.y)
    (h2 : s.totalMie.z ≤ s.totalMie.y) :
    kRlh.z * (iBody Real.sqrt Real.exp r0 rd pSun rPlanet rAtmos kRlh kMie shRlh shMie
          iStepSize s).totalRlh.z
      < kRlh.y * (iBody Real.sqrt Real.exp r0 rd pSun rPlanet rAtmos kRlh kMie shRlh shMie
          iStepSize s).totalRlh.y ∧
    (iBody Real.sqrt Real.exp r0 rd pSun rPlanet rAtmos kRlh kMie shRlh shMie
          iStepSize s).totalMie.z
      ≤ (iBody Real.sqrt Real.exp r0 rd pSun rPlanet rAtmos kRlh kMie shRlh shMie
          iStepSize s).totalMie.y := by
  have hoR := mul_pos (Real.exp_pos (-(length Real.sqrt
      (add r0 (mul rd (s.iTime + iStepSize * 0.5))) - rPlanet) / shRlh)) hstep
  have hoM := mul_pos (Real.exp_pos (-(length Real.sqrt
      (add r0 (mul rd (s.iTime + iStepSize * 0.5))) - rPlanet) / shMie)) hstep
  exact totals_step_dom _ _ _ _ _ _ _ _ _ _ hoR hoM.le hR hR0 h1 h2

/-! ## The driver's centre ray: origin `(0, 6372e3, 0)`, direction `(0, 0, -1)` -/

/-- The normalised sun direction of the driver is `(0, u, -u)` with `u = 1/sqrt 2`. -/
theorem normalize_sun :
    normalize Real.sqrt (⟨0, 1, -1⟩ : vec3 ℝ) = ⟨0, 1 / Real.sqrt 2, -(1 / Real.sqrt 2)⟩ := by
  have e : (0 : ℝ) * 0 + 1 * 1 + -1 * -1 = 2 := by norm_num
  simp only [normalize, length, mul, e]
  rw [vec3_ext_iff]
  refine ⟨by ring, by ring, by ring⟩

theorem inv_sqrt_two_bounds :
    (0.7 : ℝ) ≤ 1 / Real.sqrt 2 ∧ 1 / Real.sqrt 2 ≤ 0.71 ∧
      (1 / Real.sqrt 2) * (1 / Real.sqrt 2) = 1 / 2 := by
  have h2 : (0 : ℝ) ≤ 2 := by norm_num
  have hs := Real.mul_self_sqrt h2
  have hpos : 0 < Real.sqrt 2 := Real.sqrt_pos.mpr (by norm_num)
  have hlo : (1.4 : ℝ) ≤ Real.sqrt 2 := by
    apply Real.le_sqrt_of_sq_le; norm_num
  have hhi : Real.sqrt 2 ≤ 1.42 := by
    rw [Real.sqrt_le_iff]; norm_num
  refine ⟨?_, ?_, ?_⟩
  · rw [le_div_iff₀ hpos]; nlinarith
  · rw [div_le_iff₀ hpos]; nlinarith
  · field_simp

/-- For the centre ray the line misses the planet and the far bound is the sentinel. -/
theorem centre_farBound :
    rsi_d (⟨0, 6372e3, 0⟩ : vec3 ℝ) ⟨0, 0, -1⟩ 6371e3 < 0 ∧
    0 ≤ rsi_d (⟨0, 6372e3, 0⟩ : vec3 ℝ) ⟨0, 0, -1⟩ 6471e3 ∧
    (1e5 : ℝ) < (rsi Real.sqrt (⟨0, 6372e3, 0⟩ : vec3 ℝ) ⟨0, 0, -1⟩ 6471e3).y ∧
    farBound Real.sqrt (⟨0, 6372e3, 0⟩ : vec3 ℝ) ⟨0, 0, -1⟩ 6371e3 6471e3 = 1e5 := by
  have hP : rsi_d (⟨0, 6372e3, 0⟩ : vec3 ℝ) ⟨0, 0, -1⟩ 6371e3 < 0 := by
    rw [rsi_d_eq]; simp only [dot]; norm_num
  have hA : 0 ≤ rsi_d (⟨0, 6372e3, 0⟩ : vec3 ℝ) ⟨0, 0, -1⟩ 6471e3 := by
    rw [rsi_d_eq]; simp only [dot]; norm_num
  have hy : (1e5 : ℝ) < (rsi Real.sqrt (⟨0, 6372e3, 0⟩ : vec3 ℝ) ⟨0, 0, -1⟩ 6471e3).y := by
    rw [rsi_of_nonneg _ _ _ hA]
    show (1e5 : ℝ) < _ / _
    rw [lt_div_iff₀ (by simp only [dot]; norm_num)]
    have : (2e5 : ℝ) < Real.sqrt (rsi_d (⟨0, 6372e3, 0⟩ : vec3 ℝ) ⟨0, 0, -1⟩ 6471e3) := by
      apply Real.lt_sqrt_of_sq_lt
      rw [rsi_d_eq]; simp only [dot]; norm_num
    simp only [dot]
    norm_num at this ⊢
    linarith
  refine ⟨hP, hA, hy, ?_⟩
  unfold farBound Atmosphere.min
  rw [rsi_of_neg _ _ _ hP]
  simp only [not_lt.mpr hy.le, if_false]

/-- C7, the code at the failing input: for the driver's centre ray (origin `(0, 6372e3, 0)`,
direction `(0, 0, -1)`, Earth radii) the line misses the planet (negative planet
discriminant) and hits the atmosphere, yet the far bound is shortened to the sentinel
distance `1e5` that `rsi` returns for the planet miss, which is less than the atmosphere's
far distance; so `iStepSize` is less than `(atmosphereFar - atmosphereNear) / 16`. -/
theorem farBound_clamped_on_planet_miss :
    rsi_d (⟨0, 6372e3, 0⟩ : vec3 ℝ) (normalize Real.sqrt ⟨0, 0, -1⟩) 6371e3 < 0 ∧
    0 ≤ rsi_d (⟨0, 6372e3, 0⟩ : vec3 ℝ) (normalize Real.sqrt ⟨0, 0, -1⟩) 6471e3 ∧
    farBound Real.sqrt (⟨0, 6372e3, 0⟩ : vec3 ℝ) (normalize Real.sqrt ⟨0, 0, -1⟩)
      6371e3 6471e3 = 1e5 ∧
    (1e5 : ℝ) < (rsi Real.sqrt (⟨0, 6372e3, 0⟩ : vec3 ℝ) (normalize Real.sqrt ⟨0, 0, -1⟩)
      6471e3).y ∧
    iStepSizeOf Real.sqrt (⟨0, 6372e3, 0⟩ : vec3 ℝ) (normalize Real.sqrt ⟨0, 0, -1⟩)
        6371e3 6471e3
      < ((rsi Real.sqrt (⟨0, 6372e3, 0⟩ : vec3 ℝ) (normalize Real.sqrt ⟨0, 0, -1⟩) 6471e3).y
          - (rsi Real.sqrt (⟨0, 6372e3, 0⟩ : vec3 ℝ) (normalize Real.sqrt ⟨0, 0, -1⟩)
              6471e3).x) / 16 := by
  rw [normalize_unit_neg_z]
  obtain ⟨hP, hA, hy, hfar⟩ := centre_farBound
  refine ⟨hP, hA, hfar, hy, ?_⟩
  unfold iStepSizeOf
  rw [hfar]
  unfold ISTEPS
  push_cast
  apply div_lt_div_of_pos_right _ (by norm_num)
  linarith

/-- The primary step size of the centre ray lies between 76724 and 76725 metres. -/
theorem centre_iStepSize :
    76724 ≤ iStepSizeOf Real.sqrt (⟨0, 6372e3, 0⟩ : vec3 ℝ) ⟨0, 0, -1⟩ 6371e3 6471e3 ∧
    iStepSizeOf Real.sqrt (⟨0, 6372e3, 0⟩ : vec3 ℝ) ⟨0, 0, -1⟩ 6371e3 6471e3 ≤ 76725 := by
  obtain ⟨-, hA, -, hfar⟩ := centre_farBound
  have hd : rsi_d (⟨0, 6372e3, 0⟩ : vec3 ℝ) ⟨0, 0, -1⟩ 6471e3 = 5085828000000 := by
    rw [rsi_d_eq]; simp only [dot]; norm_num
  have hlo : (2255178 : ℝ) ≤ Real.sqrt (rsi_d (⟨0, 6372e3, 0⟩ : vec3 ℝ) ⟨0, 0, -1⟩ 6471e3) := by
    apply Real.le_sqrt_of_sq_le; rw [hd]; norm_num
  have hhi : Real.sqrt (rsi_d (⟨0, 6372e3, 0⟩ : vec3 ℝ) ⟨0, 0, -1⟩ 6471e3) ≤ 2255180 := by
    rw [Real.sqrt_le_iff, hd]; norm_num
  unfold iStepSizeOf
  rw [hfar, rsi_of_nonneg _ _ _ hA]
  unfold ISTEPS
  simp only [dot]
  generalize Real.sqrt (rsi_d (⟨0, 6372e3, 0⟩ : vec3 ℝ) ⟨0, 0, -1⟩ 6471e3) = S at hlo hhi
  norm_num
  constructor
  · rw [le_div_iff₀ (by norm_num)]; linarith
  · rw [div_le_iff₀ (by norm_num)]; linarith

/-- The first Rayleigh depth increment of the centre ray is at least 65900. -/
theorem centre_first_step (h : ℝ) (h1 : 76724 ≤ h) (h2 : h ≤ 76725) :
    65900 ≤ Real.exp (-(length Real.sqrt (add (⟨0, 6372e3, 0⟩ : vec3 ℝ)
        (mul ⟨0, 0, -1⟩ (0.0 + h * 0.5))) - 6371e3) / 8e3) * h := by
  have hlen : length Real.sqrt (add (⟨0, 6372e3, 0⟩ : vec3 ℝ)
      (mul ⟨0, 0, -1⟩ (0.0 + h * 0.5))) ≤ 6372120 := by
    simp only [length, add, mul]
    rw [Real.sqrt_le_iff]
    refine ⟨by norm_num, ?_⟩
    norm_num
    nlinarith
  generalize length Real.sqrt (add (⟨0, 6372e3, 0⟩ : vec3 ℝ)
      (mul ⟨0, 0, -1⟩ (0.0 + h * 0.5))) = L at hlen ⊢
  have he : (0.86 : ℝ) ≤ Real.exp (-(L - 6371e3) / 8e3) := by
    have hm : (-0.14 : ℝ) ≤ -(L - 6371e3) / 8e3 := by
      rw [le_div_iff₀ (by norm_num)]
      norm_num
      linarith
    have := Real.add_one_le_exp (-0.14)
    have hmono := Real.exp_le_exp.mpr hm
    norm_num at this
    linarith
  nlinarith

theorem exp_neg_twelve : Real.exp (-(6471e3 - 6371e3) / 8e3) ≤ 0.075 := by
  have h := Real.add_one_le_exp (12.5 : ℝ)
  have e : (-(6471e3 - 6371e3) / 8e3 : ℝ) = -12.5 := by norm_num
  rw [e, Real.exp_neg, inv_le_comm₀ (Real.exp_pos _) (by norm_num)]
  norm_num at h ⊢
  linarith

/-- Along the centre ray, at every distance `t` up to the last primary sample, the
secondary Rayleigh depth towards the sun is at least `-1500`. -/
theorem centre_jOdRlh_lower (t : ℝ) (ht0 : 0 ≤ t) (ht1 : t ≤ 1189237.5) :
    -1500 ≤ (jLoop Real.sqrt Real.exp (add (⟨0, 6372e3, 0⟩ : vec3 ℝ) (mul ⟨0, 0, -1⟩ t))
      (normalize Real.sqrt ⟨0, 1, -1⟩) 6371e3 6471e3 8e3 1.2e3).jOdRlh := by
  rw [normalize_sun]
  obtain ⟨hu1, hu2, huu⟩ := inv_sqrt_two_bounds
  generalize 1 / Real.sqrt 2 = u at hu1 hu2 huu
  have hunit : dot (⟨0, u, -u⟩ : vec3 ℝ) ⟨0, u, -u⟩ = 1 := by
    simp only [dot]; nlinarith
  have hne : (⟨0, u, -u⟩ : vec3 ℝ) ≠ ⟨0, 0, 0⟩ := by
    intro h0
    rw [h0] at hunit
    simp [dot] at hunit
  by_cases hin : dot (add (⟨0, 6372e3, 0⟩ : vec3 ℝ) (mul ⟨0, 0, -1⟩ t))
      (add (⟨0, 6372e3, 0⟩ : vec3 ℝ) (mul ⟨0, 0, -1⟩ t)) ≤ 6471e3 * 6471e3
  · have := jLoop_jOdRlh_nonneg _ (⟨0, u, -u⟩ : vec3 ℝ) 6371e3 6471e3 8e3 1.2e3
      (rsi_y_nonneg_of_inside _ _ _ hne hin)
    linarith
  · have hout := not_le.mp hin
    have hYb : dot (add (⟨0, 6372e3, 0⟩ : vec3 ℝ) (mul ⟨0, 0, -1⟩ t))
        (add (⟨0, 6372e3, 0⟩ : vec3 ℝ) (mul ⟨0, 0, -1⟩ t)) - 6471e3 * 6471e3
        ≤ 20000 * (2 * dot (⟨0, u, -u⟩ : vec3 ℝ)
            (add (⟨0, 6372e3, 0⟩ : vec3 ℝ) (mul ⟨0, 0, -1⟩ t)) - 20000) := by
      simp only [dot, add, mul]
      norm_num at hu1 hu2 ht1 ⊢
      nlinarith [mul_nonneg ht0 (sub_nonneg.mpr hu1)]
    have := jLoop_jOdRlh_lower_outside _ (⟨0, u, -u⟩ : vec3 ℝ) 6371e3 6471e3 8e3 1.2e3 20000
      hunit hout (by norm_num) hYb (by norm_num)
    have hE := exp_neg_twelve
    nlinarith

theorem centre_ratio (R : ℝ) (hR : 64400 ≤ R) :
    (22.4e-6 : ℝ) < 13.0e-6 * Real.exp ((22.4e-6 - 13.0e-6) * R) ∧
    0 ≤ (22.4e-6 - 13.0e-6 : ℝ) * R := by
  have hx : (0.6 : ℝ) ≤ (22.4e-6 - 13.0e-6) * R := by
    norm_num; linarith
  have h1 := Real.quadratic_le_exp_of_nonneg (show (0 : ℝ) ≤ 0.6 by norm_num)
  have h2 : Real.exp 0.6 ≤ Real.exp ((22.4e-6 - 13.0e-6) * R) := Real.exp_le_exp.mpr hx
  constructor
  · generalize Real.exp ((22.4e-6 - 13.0e-6) * R) = E at h2 ⊢
    generalize Real.exp 0.6 = E0 at h1 h2
    norm_num at h1 ⊢
    linarith
  · linarith

/-- For the centre ray and the Earth preset, after the primary loop the weighted Rayleigh
total of the third channel is strictly below that of the second, and the Mie total of the
third channel is not above that of the second. -/
theorem centre_dom :
    (22.4e-6 : ℝ) * (iLoop Real.sqrt Real.exp (⟨0, 6372e3, 0⟩ : vec3 ℝ) ⟨0, 0, -1⟩
        (normalize Real.sqrt ⟨0, 1, -1⟩) 6371e3 6471e3 ⟨5.5e-6, 13.0e-6, 22.4e-6⟩ 21e-6 8e3 1.2e3
        (iStepSizeOf Real.sqrt (⟨0, 6372e3, 0⟩ : vec3 ℝ) ⟨0, 0, -1⟩ 6371e3 6471e3)).totalRlh.z
      < 13.0e-6 * (iLoop Real.sqrt Real.exp (⟨0, 6372e3, 0⟩ : vec3 ℝ) ⟨0, 0, -1⟩
        (normalize Real.sqrt ⟨0, 1, -1⟩) 6371e3 6471e3 ⟨5.5e-6, 13.0e-6, 22.4e-6⟩ 21e-6 8e3 1.2e3
        (iStepSizeOf Real.sqrt (⟨0, 6372e3, 0⟩ : vec3 ℝ) ⟨0, 0, -1⟩ 6371e3 6471e3)).totalRlh.y ∧
    (iLoop Real.sqrt Real.exp (⟨0, 6372e3, 0⟩ : vec3 ℝ) ⟨0, 0, -1⟩
        (normalize Real.sqrt ⟨0, 1, -1⟩) 6371e3 6471e3 ⟨5.5e-6, 13.0e-6, 22.4e-6⟩ 21e-6 8e3 1.2e3
        (iStepSizeOf Real.sqrt (⟨0, 6372e3, 0⟩ : vec3 ℝ) ⟨0, 0, -1⟩ 6371e3 6471e3)).totalMie.z
      ≤ (iLoop Real.sqrt Real.exp (⟨0, 6372e3, 0⟩ : vec3 ℝ) ⟨0, 0, -1⟩
        (normalize Real.sqrt ⟨0, 1, -1⟩) 6371e3 6471e3 ⟨5.5e-6, 13.0e-6, 22.4e-6⟩ 21e-6 8e3 1.2e3
        (iStepSizeOf Real.sqrt (⟨0, 6372e3, 0⟩ : vec3 ℝ) ⟨0, 0, -1⟩ 6371e3 6471e3)).totalMie.y := by
  obtain ⟨hh1, hh2⟩ := centre_iStepSize
  generalize iStepSizeOf Real.sqrt (⟨0, 6372e3, 0⟩ : vec3 ℝ) ⟨0, 0, -1⟩ 6371e3 6471e3 = h
    at hh1 hh2 ⊢
  have hpos : 0 < h := by linarith
  -- the depth seen by the sample of pass `n` is at least 64400
  have key : ∀ n : Nat, n ≤ 15 →
      64400 ≤ (iBody Real.sqrt Real.exp (⟨0, 6372e3, 0⟩ : vec3 ℝ) ⟨0, 0, -1⟩
          (normalize Real.sqrt ⟨0, 1, -1⟩) 6371e3 6471e3 ⟨5.5e-6, 13.0e-6, 22.4e-6⟩ 21e-6 8e3
          1.2e3 h
          ((iBody Real.sqrt Real.exp (⟨0, 6372e3, 0⟩ : vec3 ℝ) ⟨0, 0, -1⟩
            (normalize Real.sqrt ⟨0, 1, -1⟩) 6371e3 6471e3 ⟨5.5e-6, 13.0e-6, 22.4e-6⟩ 21e-6 8e3
            1.2e3 h)^[n] ⟨0.0, ⟨0, 0, 0⟩, ⟨0, 0, 0⟩, 0.0, 0.0⟩)).iOdRlh
        + (jLoop Real.sqrt Real.exp (add (⟨0, 6372e3, 0⟩ : vec3 ℝ) (mul ⟨0, 0, -1⟩
            (((iBody Real.sqrt Real.exp (⟨0, 6372e3, 0⟩ : vec3 ℝ) ⟨0, 0, -1⟩
              (normalize Real.sqrt ⟨0, 1, -1⟩) 6371e3 6471e3 ⟨5.5e-6, 13.0e-6, 22.4e-6⟩ 21e-6 8e3
              1.2e3 h)^[n] ⟨0.0, ⟨0, 0, 0⟩, ⟨0, 0, 0⟩, 0.0, 0.0⟩).iTime + h * 0.5)))
            (normalize Real.sqrt ⟨0, 1, -1⟩) 6371e3 6471e3 8e3 1.2e3).jOdRlh := by
    intro n hn
    have hn' : (n : ℝ) ≤ 15 := by exact_mod_cast hn
    have hn0 : (0 : ℝ) ≤ n := Nat.cast_nonneg n
    rw [iBody_iterate_iTime]
    have a1 := iBody_iterate_iOdRlh_ge (⟨0, 6372e3, 0⟩ : vec3 ℝ) ⟨0, 0, -1⟩
      (normalize Real.sqrt ⟨0, 1, -1⟩) 6371e3 6471e3 ⟨5.5e-6, 13.0e-6, 22.4e-6⟩ 21e-6 8e3
      1.2e3 h hpos.le n
    rw [Function.iterate_succ_apply'] at a1
    have a2 := centre_first_step h hh1 hh2
    have a3 := centre_jOdRlh_lower (n * h + h * 0.5) (by positivity)
      (by norm_num; nlinarith)
    linarith
  -- the comparison holds after every pass
  have inv : ∀ n : Nat, n ≤ 16 →
      (22.4e-6 : ℝ) * ((iBody Real.sqrt Real.exp (⟨0, 6372e3, 0⟩ : vec3 ℝ) ⟨0, 0, -1⟩
            (normalize Real.sqrt ⟨0, 1, -1⟩) 6371e3 6471e3 ⟨5.5e-6, 13.0e-6, 22.4e-6⟩ 21e-6 8e3
            1.2e3 h)^[n] ⟨0.0, ⟨0, 0, 0⟩, ⟨0, 0, 0⟩, 0.0, 0.0⟩).totalRlh.z
        ≤ 13.0e-6 * ((iBody Real.sqrt Real.exp (⟨0, 6372e3, 0⟩ : vec3 ℝ) ⟨0, 0, -1⟩
            (normalize Real.sqrt ⟨0, 1, -1⟩) 6371e3 6471e3 ⟨5.5e-6, 13.0e-6, 22.4e-6⟩ 21e-6 8e3
            1.2e3 h)^[n] ⟨0.0, ⟨0, 0, 0⟩, ⟨0, 0, 0⟩, 0.0, 0.0⟩).totalRlh.y ∧
      ((iBody Real.sqrt Real.exp (⟨0, 6372e3, 0⟩ : vec3 ℝ) ⟨0, 0, -1⟩
            (normalize Real.sqrt ⟨0, 1, -1⟩) 6371e3 6471e3 ⟨5.5e-6, 13.0e-6, 22.4e-6⟩ 21e-6 8e3
            1.2e3 h)^[n] ⟨0.0, ⟨0, 0, 0⟩, ⟨0, 0, 0⟩, 0.0, 0.0⟩).totalMie.z
        ≤ ((iBody Real.sqrt Real.exp (⟨0, 6372e3, 0⟩ : vec3 ℝ) ⟨0, 0, -1⟩
            (normalize Real.sqrt ⟨0, 1, -1⟩) 6371e3 6471e3 ⟨5.5e-6, 13.0e-6, 22.4e-6⟩ 21e-6 8e3
            1.2e3 h)^[n] ⟨0.0, ⟨0, 0, 0⟩, ⟨0, 0, 0⟩, 0.0, 0.0⟩).totalMie.y := by
    intro n
    induction n with
    | zero => intro _; simp
    | succ n ih =>
      intro hn
      have hn15 : n ≤ 15 := Nat.le_of_succ_le_succ hn
      obtain ⟨i1, i2⟩ := ih (Nat.le_of_succ_le hn)
      obtain ⟨r1, r2⟩ := centre_ratio _ (key n hn15)
      rw [Function.iterate_succ_apply']
      have := iBody_dom (⟨0, 6372e3, 0⟩ : vec3 ℝ) ⟨0, 0, -1⟩
        (normalize Real.sqrt ⟨0, 1, -1⟩) 6371e3 6471e3 ⟨5.5e-6, 13.0e-6, 22.4e-6⟩ 21e-6 8e3
        1.2e3 h hpos _ r1 r2 i1 i2
      exact ⟨this.1.le, this.2⟩
  obtain ⟨i1, i2⟩ := inv 15 (by norm_num)
  obtain ⟨r1, r2⟩ := centre_ratio _ (key 15 (le_refl 15))
  unfold iLoop
  show _ * ((iBody Real.sqrt Real.exp (⟨0, 6372e3, 0⟩ : vec3 ℝ) ⟨0, 0, -1⟩
            (normalize Real.sqrt ⟨0, 1, -1⟩) 6371e3 6471e3 ⟨5.5e-6, 13.0e-6, 22.4e-6⟩ 21e-6 8e3
            1.2e3 h)^[15 + 1] ⟨0.0, ⟨0, 0, 0⟩, ⟨0, 0, 0⟩, 0.0, 0.0⟩).totalRlh.z < _ ∧ _
  rw [Function.iterate_succ_apply']
  exact iBody_dom (⟨0, 6372e3, 0⟩ : vec3 ℝ) ⟨0, 0, -1⟩
    (normalize Real.sqrt ⟨0, 1, -1⟩) 6371e3 6471e3 ⟨5.5e-6, 13.0e-6, 22.4e-6⟩ 21e-6 8e3
    1.2e3 h hpos _ r1 r2 i1 i2

/-- For the driver's centre ray and the Earth preset the third channel of `atmosphere` is
strictly below the second. -/
theorem centre_z_lt_y :
    (ATMOSPHERE_EARTH (atmosphere Real.sqrt Real.exp Real.rpow (⟨0, 6372e3, 0⟩ : vec3 ℝ)
        ⟨0, 0, -1⟩ ⟨0, 1, -1⟩)).z
      < (ATMOSPHERE_EARTH (atmosphere Real.sqrt Real.exp Real.rpow (⟨0, 6372e3, 0⟩ : vec3 ℝ)
        ⟨0, 0, -1⟩ ⟨0, 1, -1⟩)).y := by
  have hrd : (⟨0, 0, -1⟩ : vec3 ℝ) ≠ ⟨0, 0, 0⟩ := by simp [vec3_ext_iff]
  have hsun : (⟨0, 1, -1⟩ : vec3 ℝ) ≠ ⟨0, 0, 0⟩ := by simp [vec3_ext_iff]
  obtain ⟨-, hA, -, -⟩ := centre_farBound
  have hhit : (rsi Real.sqrt (⟨0, 6372e3, 0⟩ : vec3 ℝ) (normalize Real.sqrt ⟨0, 0, -1⟩)
      6471e3).x ≤ (rsi Real.sqrt (⟨0, 6372e3, 0⟩ : vec3 ℝ) (normalize Real.sqrt ⟨0, 0, -1⟩)
      6471e3).y := by
    rw [normalize_unit_neg_z]
    exact rsi_x_le_y _ _ _ hrd hA
  unfold ATMOSPHERE_EARTH
  rw [atmosphere_of_hit _ _ _ _ _ _ _ _ _ _ _ hhit]
  have hR := pRlhOf_pos (dot (normalize Real.sqrt (⟨0, 0, -1⟩ : vec3 ℝ))
    (normalize Real.sqrt ⟨0, 1, -1⟩))
  have hM := pMieOf_nonneg _ 0.758 (mu_sq_le_one hrd hsun) earth_g_sq
  have hD := centre_dom
  rw [normalize_unit_neg_z] at hR hM ⊢
  generalize iLoop Real.sqrt Real.exp (⟨0, 6372e3, 0⟩ : vec3 ℝ) ⟨0, 0, -1⟩
    (normalize Real.sqrt ⟨0, 1, -1⟩) 6371e3 6471e3 ⟨5.5e-6, 13.0e-6, 22.4e-6⟩ 21e-6 8e3 1.2e3
    _ = S at hD ⊢
  generalize pRlhOf (dot (⟨0, 0, -1⟩ : vec3 ℝ) (normalize Real.sqrt ⟨0, 1, -1⟩)) = P at hR ⊢
  generalize pMieOf Real.rpow (dot (⟨0, 0, -1⟩ : vec3 ℝ) (normalize Real.sqrt ⟨0, 1, -1⟩))
    0.758 = Q at hM ⊢
  obtain ⟨d1, d2⟩ := hD
  dsimp only
  have e1 : P * 22.4e-6 * S.totalRlh.z < P * 13.0e-6 * S.totalRlh.y := by
    have := mul_lt_mul_of_pos_left d1 hR
    linarith
  have e2 : Q * 21e-6 * S.totalMie.z ≤ Q * 21e-6 * S.totalMie.y :=
    mul_le_mul_of_nonneg_left d2 (mul_nonneg hM (by norm_num))
  have hI : (0 : ℝ) < 22.0 := by norm_num
  exact mul_lt_mul_of_pos_left (by linarith) hI

/-- The attenuation with the larger coefficient is the other one times `exp(-(ky - kx) R)`. -/
theorem attn_ratio (M R kx ky : ℝ) :
    Real.exp (-(M + ky * R)) = Real.exp (-(M + kx * R)) * Real.exp (-((ky - kx) * R)) := by
  rw [← Real.exp_add]; congr 1; ring

/-- One accumulation step does not decrease the weighted difference between two channels
when the Rayleigh depth `R` is so large that `ky < kx * exp((ky - kx) * R)`. -/
theorem totals_step_F (tRx tRy tMx tMy kx ky kM M R oR oM P Q : ℝ) (hoR : 0 ≤ oR)
    (hoM : 0 ≤ oM) (hP : 0 ≤ P) (hQ : 0 ≤ Q) (hkM : 0 ≤ kM)
    (hR : ky < kx * Real.exp ((ky - kx) * R)) (hR0 : 0 ≤ (ky - kx) * R) :
    P * (kx * tRx - ky * tRy) + Q * kM * (tMx - tMy)
      ≤ P * (kx * (tRx + Real.exp (-(M + kx * R)) * oR)
            - ky * (tRy + Real.exp (-(M + ky * R)) * oR))
        + Q * kM * ((tMx + Real.exp (-(M + kx * R)) * oM)
            - (tMy + Real.exp (-(M + ky * R)) * oM)) := by
  have hA := (attn_dom M R kx ky hR).le
  have hB := attn_mono M R kx ky hR0
  have h1 := mul_nonneg hP (mul_nonneg (sub_nonneg.mpr hA) hoR)
  have h2 := mul_nonneg (mul_nonneg hQ hkM) (mul_nonneg (sub_nonneg.mpr hB) hoM)
  nlinarith

/-- The first accumulation step, from zero totals: if the second channel's attenuation is
at most `c` times the first one's and the Mie increment outweighs the Rayleigh deficit, the
weighted difference between the two channels becomes positive. -/
theorem totals_first_F (ax ay kx ky kM c oR oM P Q : ℝ) (hax : 0 < ax) (hay : ay ≤ c * ax)
    (hoR : 0 ≤ oR) (hoM : 0 ≤ oM) (hP : 0 ≤ P) (hQ : 0 ≤ Q) (hkM : 0 ≤ kM) (hky : 0 ≤ ky)
    (hbr : 0 < Q * kM * oM * (1 - c) + P * oR * (kx - ky * c)) :
    0 < P * (kx * (0 + ax * oR) - ky * (0 + ay * oR))
        + Q * kM * ((0 + ax * oM) - (0 + ay * oM)) := by
  have h1 : P * oR * ky * (c * ax - ay) ≥ 0 :=
    mul_nonneg (mul_nonneg (mul_nonneg hP hoR) hky) (sub_nonneg.mpr hay)
  have h2 : Q * kM * oM * (c * ax - ay) ≥ 0 :=
    mul_nonneg (mul_nonneg (mul_nonneg hQ hkM) hoM) (sub_nonneg.mpr hay)
  have h3 := mul_pos hax hbr
  nlinarith

/-- With a non-negative primary step the primary Rayleigh depth never decreases. -/
theorem iBody_iterate_iOdRlh_mono (r0 rd pSun : vec3 ℝ) (rPlanet rAtmos : ℝ) (kRlh : vec3 ℝ)
    (kMie shRlh shMie iStepSize : ℝ) (hstep : 0 ≤ iStepSize) (m k : Nat) :
    ((iBody Real.sqrt Real.exp r0 rd pSun rPlanet rAtmos kRlh kMie shRlh shMie
        iStepSize)^[m] ⟨0.0, ⟨0, 0, 0⟩, ⟨0, 0, 0⟩, 0.0, 0.0⟩).iOdRlh
      ≤ ((iBody Real.sqrt Real.exp r0 rd pSun rPlanet rAtmos kRlh kMie shRlh shMie
        iStepSize)^[m + k] ⟨0.0, ⟨0, 0, 0⟩, ⟨0, 0, 0⟩, 0.0, 0.0⟩).iOdRlh := by
  induction k with
  | zero => simp
  | succ k ih =>
    rw [← Nat.add_assoc, Function.iterate_succ_apply']
    refine le_trans ih ?_
    simp only [iBody]
    have := mul_nonneg (Real.exp_pos (-(length Real.sqrt (add r0 (mul rd
      (((iBody Real.sqrt Real.exp r0 rd pSun rPlanet rAtmos kRlh kMie shRlh shMie
        iStepSize)^[m + k] ⟨0.0, ⟨0, 0, 0⟩, ⟨0, 0, 0⟩, 0.0, 0.0⟩).iTime
          + iStepSize * 0.5))) - rPlanet) / shRlh)).le hstep
    linarith

/-- One pass of the primary loop does not decrease the weighted difference between the
first and the second channel, once the Rayleigh depth seen by the sample is large. -/
theorem iBody_F_mono (r0 rd pSun : vec3 ℝ) (rPlanet rAtmos : ℝ) (kRlh : vec3 ℝ)
    (kMie shRlh shMie iStepSize P Q : ℝ) (hstep : 0 ≤ iStepSize) (hP : 0 ≤ P) (hQ : 0 ≤ Q)
    (hkM : 0 ≤ kMie) (s : iState ℝ)
    (hR : kRlh.y < kRlh.x * Real.exp ((kRlh.y - kRlh.x) *
      ((iBody Real.sqrt Real.exp r0 rd pSun rPlanet rAtmos kRlh kMie shRlh shMie
          iStepSize s).iOdRlh
        + (jLoop Real.sqrt Real.exp (add r0 (mul rd (s.iTime + iStepSize * 0.5))) pSun
            rPlanet rAtmos shRlh shMie).jOdRlh)))
    (hR0 : 0 ≤ (kRlh.y - kRlh.x) *
      ((iBody Real.sqrt Real.exp r0 rd pSun rPlanet rAtmos kRlh kMie shRlh shMie
          iStepSize s).iOdRlh
        + (jLoop Real.sqrt Real.exp (add r0 (mul rd (s.iTime + iStepSize * 0.5))) pSun
            rPlanet rAtmos shRlh shMie).jOdRlh)) :
    P * (kRlh.x * s.totalRlh.x - kRlh.y * s.totalRlh.y)
        + Q * kMie * (s.totalMie.x - s.totalMie.y)
      ≤ P * (kRlh.x * (iBody Real.sqrt Real.exp r0 rd pSun rPlanet rAtmos kRlh kMie shRlh
              shMie iStepSize s).totalRlh.x
            - kRlh.y * (iBody Real.sqrt Real.exp r0 rd pSun rPlanet rAtmos kRlh kMie shRlh
              shMie iStepSize s).totalRlh.y)
        + Q * kMie * ((iBody Real.sqrt Real.exp r0 rd pSun rPlanet rAtmos kRlh kMie shRlh
              shMie iStepSize s).totalMie.x
            - (iBody Real.sqrt Real.exp r0 rd pSun rPlanet rAtmos kRlh kMie shRlh
              shMie iStepSize s).totalMie.y) := by
  have hoR := mul_nonneg (Real.exp_pos (-(length Real.sqrt
      (add r0 (mul rd (s.iTime + iStepSize * 0.5))) - rPlanet) / shRlh)).le hstep
  have hoM := mul_nonneg (Real.exp_pos (-(length Real.sqrt
      (add r0 (mul rd (s.iTime + iStepSize * 0.5))) - rPlanet) / shMie)).le hstep
  exact totals_step_F _ _ _ _ _ _ _ _ _ _ _ _ _ hoR hoM hP hQ hkM hR hR0

/-- The `pow(x, 1.5)` of a positive real `x` is `x * sqrt x`. -/
theorem rpow_three_halves (x : ℝ) (hx : 0 < x) : Real.rpow x 1.5 = x * Real.sqrt x := by
  have e : (1.5 : ℝ) = 1 + 1 / 2 := by norm_num
  show x ^ (1.5 : ℝ) = _
  rw [e, Real.rpow_add hx, Real.rpow_one, Real.sqrt_eq_rpow]

theorem inv_sqrt_two_tight :
    (0.7071 : ℝ) ≤ 1 / Real.sqrt 2 ∧ 1 / Real.sqrt 2 ≤ 0.70711 := by
  have hpos : 0 < Real.sqrt 2 := Real.sqrt_pos.mpr (by norm_num)
  have hlo : (1.41421 : ℝ) ≤ Real.sqrt 2 := by
    apply Real.le_sqrt_of_sq_le; norm_num
  have hhi : Real.sqrt 2 ≤ 1.41422 := by
    rw [Real.sqrt_le_iff]; norm_num
  constructor
  · rw [le_div_iff₀ hpos]; nlinarith
  · rw [div_le_iff₀ hpos]; nlinarith

/-- The cosine between the centre ray and the sun direction is `1/sqrt 2`. -/
theorem centre_mu :
    dot (⟨0, 0, -1⟩ : vec3 ℝ) (normalize Real.sqrt ⟨0, 1, -1⟩) = 1 / Real.sqrt 2 := by
  rw [normalize_sun]; simp only [dot]; ring

/-- The Rayleigh phase of the centre ray is at most 0.08953. -/
theorem centre_pRlh_upper :
    pRlhOf (dot (⟨0, 0, -1⟩ : vec3 ℝ) (normalize Real.sqrt ⟨0, 1, -1⟩)) ≤ 0.08953 := by
  rw [centre_mu]
  obtain ⟨-, -, huu⟩ := inv_sqrt_two_bounds
  unfold pRlhOf
  simp only [huu, PI]
  norm_num

/-- The Mie phase of the centre ray is at least 0.0829. -/
theorem centre_pMie_lower :
    0.0829 ≤ pMieOf Real.rpow (dot (⟨0, 0, -1⟩ : vec3 ℝ) (normalize Real.sqrt ⟨0, 1, -1⟩))
      0.758 := by
  rw [centre_mu]
  obtain ⟨-, -, huu⟩ := inv_sqrt_two_bounds
  obtain ⟨hu1, hu2⟩ := inv_sqrt_two_tight
  generalize 1 / Real.sqrt 2 = u at hu1 hu2 huu
  have hb1 : (0.5025 : ℝ) ≤ 1.0 + 0.758 * 0.758 - 2.0 * u * 0.758 := by
    norm_num at hu2 ⊢; linarith
  have hb2 : (1.0 + 0.758 * 0.758 - 2.0 * u * 0.758 : ℝ) ≤ 0.50261 := by
    norm_num at hu1 ⊢; linarith
  have hbpos : (0 : ℝ) < 1.0 + 0.758 * 0.758 - 2.0 * u * 0.758 := by linarith
  have hsq : Real.sqrt (1.0 + 0.758 * 0.758 - 2.0 * u * 0.758) ≤ 0.709 := by
    rw [Real.sqrt_le_iff]
    refine ⟨by norm_num, ?_⟩
    norm_num at hb2 ⊢
    linarith
  have hs0 := Real.sqrt_nonneg (1.0 + 0.758 * 0.758 - 2.0 * u * 0.758)
  have hpow : Real.rpow (1.0 + 0.758 * 0.758 - 2.0 * u * 0.758) 1.5 ≤ 0.3564 := by
    rw [rpow_three_halves _ hbpos]
    generalize Real.sqrt (1.0 + 0.758 * 0.758 - 2.0 * u * 0.758) = r at hsq hs0
    generalize (1.0 + 0.758 * 0.758 - 2.0 * u * 0.758 : ℝ) = b at hb1 hb2 hbpos
    norm_num at hb2 hsq ⊢
    nlinarith
  have hpow0 : 0 < Real.rpow (1.0 + 0.758 * 0.758 - 2.0 * u * 0.758) 1.5 := by
    rw [rpow_three_halves _ hbpos]
    exact mul_pos hbpos (Real.sqrt_pos.mpr hbpos)
  unfold pMieOf
  simp only [huu, PI]
  generalize Real.rpow (1.0 + 0.758 * 0.758 - 2.0 * u * 0.758) 1.5 = w at hpow hpow0
  rw [le_div_iff₀ (by positivity)]
  norm_num at hpow ⊢
  nlinarith

theorem exp_neg_le_inv_quad (x : ℝ) (hx : 0 ≤ x) :
    Real.exp (-x) ≤ 1 / (1 + x + x ^ 2 / 2) := by
  have h := Real.quadratic_le_exp_of_nonneg hx
  have hpos : 0 < 1 + x + x ^ 2 / 2 := by positivity
  rw [Real.exp_neg, ← one_div]
  exact one_div_le_one_div_of_le hpos h

theorem pow_eight_le_exp_neg (x : ℝ) (hx : x ≤ 8) : (1 - x / 8) ^ 8 ≤ Real.exp (-x) := by
  have h := Real.one_sub_le_exp_neg (x / 8)
  have h0 : 0 ≤ 1 - x / 8 := by linarith
  have e : Real.exp (-x) = Real.exp (-(x / 8)) ^ 8 := by
    rw [← Real.exp_nat_mul]; congr 1; push_cast; ring
  rw [e]
  exact pow_le_pow_left₀ h0 h 8

/-- The first sample of the centre ray: bounds on the Rayleigh and Mie depth increments. -/
theorem centre_first_step_bounds (h : ℝ) (h1 : 76724 ≤ h) (h2 : h ≤ 76725) :
    Real.exp (-(length Real.sqrt (add (⟨0, 6372e3, 0⟩ : vec3 ℝ)
        (mul ⟨0, 0, -1⟩ (0.0 + h * 0.5))) - 6371e3) / 8e3) * h ≤ 66800 ∧
    28500 ≤ Real.exp (-(length Real.sqrt (add (⟨0, 6372e3, 0⟩ : vec3 ℝ)
        (mul ⟨0, 0, -1⟩ (0.0 + h * 0.5))) - 6371e3) / 1.2e3) * h := by
  have hlo : 6372115 ≤ length Real.sqrt (add (⟨0, 6372e3, 0⟩ : vec3 ℝ)
      (mul ⟨0, 0, -1⟩ (0.0 + h * 0.5))) := by
    simp only [length, add, mul]
    apply Real.le_sqrt_of_sq_le
    norm_num
    nlinarith
  have hhi : length Real.sqrt (add (⟨0, 6372e3, 0⟩ : vec3 ℝ)
      (mul ⟨0, 0, -1⟩ (0.0 + h * 0.5))) ≤ 6372116 := by
    simp only [length, add, mul]
    rw [Real.sqrt_le_iff]
    refine ⟨by norm_num, ?_⟩
    norm_num
    nlinarith
  generalize length Real.sqrt (add (⟨0, 6372e3, 0⟩ : vec3 ℝ)
      (mul ⟨0, 0, -1⟩ (0.0 + h * 0.5))) = L at hlo hhi ⊢
  constructor
  · have hm : -(L - 6371e3) / 8e3 ≤ -(0.139375 : ℝ) := by
      rw [div_le_iff₀ (by norm_num)]
      norm_num
      linarith
    have hb := exp_neg_le_inv_quad 0.139375 (by norm_num)
    have hmono := Real.exp_le_exp.mpr hm
    have he : Real.exp (-(L - 6371e3) / 8e3) ≤ 0.8703 := by
      refine le_trans hmono (le_trans hb ?_)
      norm_num
    have hpos := Real.exp_pos (-(L - 6371e3) / 8e3)
    nlinarith
  · have hm : -(0.93 : ℝ) ≤ -(L - 6371e3) / 1.2e3 := by
      rw [le_div_iff₀ (by norm_num)]
      norm_num
      linarith
    have hb := pow_eight_le_exp_neg 0.93 (by norm_num)
    have hmono := Real.exp_le_exp.mpr hm
    have he : (0.372 : ℝ) ≤ Real.exp (-(L - 6371e3) / 1.2e3) := by
      refine le_trans ?_ (le_trans hb hmono)
      norm_num
    nlinarith

/-- The second sample of the centre ray: the Rayleigh depth increment is at least 57000. -/
theorem centre_second_step (h : ℝ) (h1 : 76724 ≤ h) (h2 : h ≤ 76725) :
    57000 ≤ Real.exp (-(length Real.sqrt (add (⟨0, 6372e3, 0⟩ : vec3 ℝ)
        (mul ⟨0, 0, -1⟩ (0.0 + h + h * 0.5))) - 6371e3) / 8e3) * h := by
  have hlen : length Real.sqrt (add (⟨0, 6372e3, 0⟩ : vec3 ℝ)
      (mul ⟨0, 0, -1⟩ (0.0 + h + h * 0.5))) ≤ 6373040 := by
    simp only [length, add, mul]
    rw [Real.sqrt_le_iff]
    refine ⟨by norm_num, ?_⟩
    norm_num
    nlinarith
  generalize length Real.sqrt (add (⟨0, 6372e3, 0⟩ : vec3 ℝ)
      (mul ⟨0, 0, -1⟩ (0.0 + h + h * 0.5))) = L at hlen ⊢
  have he : (0.745 : ℝ) ≤ Real.exp (-(L - 6371e3) / 8e3) := by
    have hm : (-0.255 : ℝ) ≤ -(L - 6371e3) / 8e3 := by
      rw [le_div_iff₀ (by norm_num)]
      norm_num
      linarith
    have := Real.add_one_le_exp (-0.255)
    have hmono := Real.exp_le_exp.mpr hm
    norm_num at this
    linarith
  nlinarith

theorem centre_ratio_first (R : ℝ) (hR : 64400 ≤ R) :
    Real.exp (-((13.0e-6 - 5.5e-6) * R)) ≤ 0.6252 := by
  have hx : (0.483 : ℝ) ≤ (13.0e-6 - 5.5e-6) * R := by
    norm_num; linarith
  have hb := exp_neg_le_inv_quad 0.483 (by norm_num)
  have hmono : Real.exp (-((13.0e-6 - 5.5e-6) * R)) ≤ Real.exp (-0.483) :=
    Real.exp_le_exp.mpr (by linarith)
  refine le_trans hmono (le_trans hb ?_)
  norm_num

theorem centre_ratio_later (R : ℝ) (hR : 121400 ≤ R) :
    (13.0e-6 : ℝ) < 5.5e-6 * Real.exp ((13.0e-6 - 5.5e-6) * R) ∧
    0 ≤ (13.0e-6 - 5.5e-6 : ℝ) * R := by
  have hx : (0.9 : ℝ) ≤ (13.0e-6 - 5.5e-6) * R := by
    norm_num; linarith
  have h1 := Real.quadratic_le_exp_of_nonneg (show (0 : ℝ) ≤ 0.45 by norm_num)
  have e : Real.exp 0.9 = Real.exp 0.45 * Real.exp 0.45 := by
    rw [← Real.exp_add]; congr 1; norm_num
  have h2 : Real.exp 0.9 ≤ Real.exp ((13.0e-6 - 5.5e-6) * R) := Real.exp_le_exp.mpr hx
  constructor
  · generalize Real.exp ((13.0e-6 - 5.5e-6) * R) = E at h2 ⊢
    rw [e] at h2
    generalize Real.exp 0.45 = E0 at h1 h2
    norm_num at h1 ⊢
    nlinarith
  · linarith

/-- The first pass of the primary loop: if the second channel's attenuation factor
`exp(-(ky - kx) R)` is at most `c` and the Mie increment outweighs the Rayleigh deficit, the
weighted difference between the first and the second channel is positive after the pass. -/
theorem iBody_first_F (r0 rd pSun : vec3 ℝ) (rPlanet rAtmos : ℝ) (kRlh : vec3 ℝ)
    (kMie shRlh shMie iStepSize P Q c : ℝ) (hstep : 0 ≤ iStepSize) (hP : 0 ≤ P) (hQ : 0 ≤ Q)
    (hkM : 0 ≤ kMie) (hky : 0 ≤ kRlh.y)
    (hc : Real.exp (-((kRlh.y - kRlh.x) *
      ((iBody Real.sqrt Real.exp r0 rd pSun rPlanet rAtmos kRlh kMie shRlh shMie
          iStepSize ⟨0.0, ⟨0, 0, 0⟩, ⟨0, 0, 0⟩, 0.0, 0.0⟩).iOdRlh
        + (jLoop Real.sqrt Real.exp (add r0 (mul rd (0.0 + iStepSize * 0.5))) pSun
            rPlanet rAtmos shRlh shMie).jOdRlh))) ≤ c)
    (hbr : 0 < Q * kMie * (Real.exp (-(length Real.sqrt
          (add r0 (mul rd (0.0 + iStepSize * 0.5))) - rPlanet) / shMie) * iStepSize) * (1 - c)
        + P * (Real.exp (-(length Real.sqrt
          (add r0 (mul rd (0.0 + iStepSize * 0.5))) - rPlanet) / shRlh) * iStepSize)
          * (kRlh.x - kRlh.y * c)) :
    0 < P * (kRlh.x * (iBody Real.sqrt Real.exp r0 rd pSun rPlanet rAtmos kRlh kMie shRlh
              shMie iStepSize ⟨0.0, ⟨0, 0, 0⟩, ⟨0, 0, 0⟩, 0.0, 0.0⟩).totalRlh.x
            - kRlh.y * (iBody Real.sqrt Real.exp r0 rd pSun rPlanet rAtmos kRlh kMie shRlh
              shMie iStepSize ⟨0.0, ⟨0, 0, 0⟩, ⟨0, 0, 0⟩, 0.0, 0.0⟩).totalRlh.y)
        + Q * kMie * ((iBody Real.sqrt Real.exp r0 rd pSun rPlanet rAtmos kRlh kMie shRlh
              shMie iStepSize ⟨0.0, ⟨0, 0, 0⟩, ⟨0, 0, 0⟩, 0.0, 0.0⟩).totalMie.x
            - (iBody Real.sqrt Real.exp r0 rd pSun rPlanet rAtmos kRlh kMie shRlh
              shMie iStepSize ⟨0.0, ⟨0, 0, 0⟩, ⟨0, 0, 0⟩, 0.0, 0.0⟩).totalMie.y) := by
  have hoR := mul_nonneg (Real.exp_pos (-(length Real.sqrt
      (add r0 (mul rd (0.0 + iStepSize * 0.5))) - rPlanet) / shRlh)).le hstep
  have hoM := mul_nonneg (Real.exp_pos (-(length Real.sqrt
      (add r0 (mul rd (0.0 + iStepSize * 0.5))) - rPlanet) / shMie)).le hstep
  have e := attn_ratio
    (kMie * ((iBody Real.sqrt Real.exp r0 rd pSun rPlanet rAtmos kRlh kMie shRlh shMie
          iStepSize ⟨0.0, ⟨0, 0, 0⟩, ⟨0, 0, 0⟩, 0.0, 0.0⟩).iOdMie
        + (jLoop Real.sqrt Real.exp (add r0 (mul rd (0.0 + iStepSize * 0.5))) pSun
            rPlanet rAtmos shRlh shMie).jOdMie))
    ((iBody Real.sqrt Real.exp r0 rd pSun rPlanet rAtmos kRlh kMie shRlh shMie
          iStepSize ⟨0.0, ⟨0, 0, 0⟩, ⟨0, 0, 0⟩, 0.0, 0.0⟩).iOdRlh
        + (jLoop Real.sqrt Real.exp (add r0 (mul rd (0.0 + iStepSize * 0.5))) pSun
            rPlanet rAtmos shRlh shMie).jOdRlh) kRlh.x kRlh.y
  have hax := Real.exp_pos (-(kMie * ((iBody Real.sqrt Real.exp r0 rd pSun rPlanet rAtmos kRlh
          kMie shRlh shMie iStepSize ⟨0.0, ⟨0, 0, 0⟩, ⟨0, 0, 0⟩, 0.0, 0.0⟩).iOdMie
        + (jLoop Real.sqrt Real.exp (add r0 (mul rd (0.0 + iStepSize * 0.5))) pSun
            rPlanet rAtmos shRlh shMie).jOdMie)
      + kRlh.x * ((iBody Real.sqrt Real.exp r0 rd pSun rPlanet rAtmos kRlh kMie shRlh shMie
          iStepSize ⟨0.0, ⟨0, 0, 0⟩, ⟨0, 0, 0⟩, 0.0, 0.0⟩).iOdRlh
        + (jLoop Real.sqrt Real.exp (add r0 (mul rd (0.0 + iStepSize * 0.5))) pSun
            rPlanet rAtmos shRlh shMie).jOdRlh)))
  have hay := mul_le_mul_of_nonneg_left hc hax.le
  rw [← e] at hay
  exact totals_first_F _ _ _ _ _ _ _ _ _ _ hax (le_of_le_of_eq hay (mul_comm _ _)) hoR hoM hP hQ
    hkM hky hbr

/-- For the centre ray and the Earth preset, after the primary loop the weighted difference
between the first and the second channel is positive, for any phase weights `P ≤ 0.08953`
and `Q ≥ 0.0829`. -/
theorem centre_F_pos (P Q : ℝ) (hP0 : 0 ≤ P) (hP : P ≤ 0.08953) (hQ : 0.0829 ≤ Q) :
    0 < P * (5.5e-6 * (iLoop Real.sqrt Real.exp (⟨0, 6372e3, 0⟩ : vec3 ℝ) ⟨0, 0, -1⟩
          (normalize Real.sqrt ⟨0, 1, -1⟩) 6371e3 6471e3 ⟨5.5e-6, 13.0e-6, 22.4e-6⟩ 21e-6 8e3
          1.2e3 (iStepSizeOf Real.sqrt (⟨0, 6372e3, 0⟩ : vec3 ℝ) ⟨0, 0, -1⟩ 6371e3
            6471e3)).totalRlh.x
        - 13.0e-6 * (iLoop Real.sqrt Real.exp (⟨0, 6372e3, 0⟩ : vec3 ℝ) ⟨0, 0, -1⟩
          (normalize Real.sqrt ⟨0, 1, -1⟩) 6371e3 6471e3 ⟨5.5e-6, 13.0e-6, 22.4e-6⟩ 21e-6 8e3
          1.2e3 (iStepSizeOf Real.sqrt (⟨0, 6372e3, 0⟩ : vec3 ℝ) ⟨0, 0, -1⟩ 6371e3
            6471e3)).totalRlh.y)
      + Q * 21e-6 * ((iLoop Real.sqrt Real.exp (⟨0, 6372e3, 0⟩ : vec3 ℝ) ⟨0, 0, -1⟩
          (normalize Real.sqrt ⟨0, 1, -1⟩) 6371e3 6471e3 ⟨5.5e-6, 13.0e-6, 22.4e-6⟩ 21e-6 8e3
          1.2e3 (iStepSizeOf Real.sqrt (⟨0, 6372e3, 0⟩ : vec3 ℝ) ⟨0, 0, -1⟩ 6371e3
            6471e3)).totalMie.x
        - (iLoop Real.sqrt Real.exp (⟨0, 6372e3, 0⟩ : vec3 ℝ) ⟨0, 0, -1⟩
          (normalize Real.sqrt ⟨0, 1, -1⟩) 6371e3 6471e3 ⟨5.5e-6, 13.0e-6, 22.4e-6⟩ 21e-6 8e3
          1.2e3 (iStepSizeOf Real.sqrt (⟨0, 6372e3, 0⟩ : vec3 ℝ) ⟨0, 0, -1⟩ 6371e3
            6471e3)).totalMie.y) := by
  obtain ⟨hh1, hh2⟩ := centre_iStepSize
  generalize iStepSizeOf Real.sqrt (⟨0, 6372e3, 0⟩ : vec3 ℝ) ⟨0, 0, -1⟩ 6371e3 6471e3 = h
    at hh1 hh2 ⊢
  have hpos : 0 < h := by linarith
  have hQ0 : 0 ≤ Q := by linarith
  -- the first pass
  have first : 0 < P * (5.5e-6 * ((iBody Real.sqrt Real.exp (⟨0, 6372e3, 0⟩ : vec3 ℝ)
          ⟨0, 0, -1⟩ (normalize Real.sqrt ⟨0, 1, -1⟩) 6371e3 6471e3 ⟨5.5e-6, 13.0e-6, 22.4e-6⟩
          21e-6 8e3 1.2e3 h)^[1] ⟨0.0, ⟨0, 0, 0⟩, ⟨0, 0, 0⟩, 0.0, 0.0⟩).totalRlh.x
        - 13.0e-6 * ((iBody Real.sqrt Real.exp (⟨0, 6372e3, 0⟩ : vec3 ℝ)
          ⟨0, 0, -1⟩ (normalize Real.sqrt ⟨0, 1, -1⟩) 6371e3 6471e3 ⟨5.5e-6, 13.0e-6, 22.4e-6⟩
          21e-6 8e3 1.2e3 h)^[1] ⟨0.0, ⟨0, 0, 0⟩, ⟨0, 0, 0⟩, 0.0, 0.0⟩).totalRlh.y)
      + Q * 21e-6 * (((iBody Real.sqrt Real.exp (⟨0, 6372e3, 0⟩ : vec3 ℝ)
          ⟨0, 0, -1⟩ (normalize Real.sqrt ⟨0, 1, -1⟩) 6371e3 6471e3 ⟨5.5e-6, 13.0e-6, 22.4e-6⟩
          21e-6 8e3 1.2e3 h)^[1] ⟨0.0, ⟨0, 0, 0⟩, ⟨0, 0, 0⟩, 0.0, 0.0⟩).totalMie.x
        - ((iBody Real.sqrt Real.exp (⟨0, 6372e3, 0⟩ : vec3 ℝ)
          ⟨0, 0, -1⟩ (normalize Real.sqrt ⟨0, 1, -1⟩) 6371e3 6471e3 ⟨5.5e-6, 13.0e-6, 22.4e-6⟩
          21e-6 8e3 1.2e3 h)^[1] ⟨0.0, ⟨0, 0, 0⟩, ⟨0, 0, 0⟩, 0.0, 0.0⟩).totalMie.y) := by
    rw [Function.iterate_one]
    have a1 := iBody_iterate_iOdRlh_ge (⟨0, 6372e3, 0⟩ : vec3 ℝ) ⟨0, 0, -1⟩
      (normalize Real.sqrt ⟨0, 1, -1⟩) 6371e3 6471e3 ⟨5.5e-6, 13.0e-6, 22.4e-6⟩ 21e-6 8e3
      1.2e3 h hpos.le 0
    rw [zero_add, Function.iterate_one] at a1
    have a2 := centre_first_step h hh1 hh2
    have a3 := centre_jOdRlh_lower (0.0 + h * 0.5) (by norm_num; linarith)
      (by norm_num; linarith)
    obtain ⟨b1, b2⟩ := centre_first_step_bounds h hh1 hh2
    have hoR := mul_nonneg (Real.exp_pos (-(length Real.sqrt (add (⟨0, 6372e3, 0⟩ : vec3 ℝ)
      (mul ⟨0, 0, -1⟩ (0.0 + h * 0.5))) - 6371e3) / 8e3)).le hpos.le
    refine iBody_first_F (⟨0, 6372e3, 0⟩ : vec3 ℝ) ⟨0, 0, -1⟩
      (normalize Real.sqrt ⟨0, 1, -1⟩) 6371e3 6471e3 ⟨5.5e-6, 13.0e-6, 22.4e-6⟩ 21e-6 8e3
      1.2e3 h P Q 0.6252 hpos.le hP0 hQ0 (by norm_num) (by norm_num)
      (centre_ratio_first _ (by linarith)) ?_
    generalize Real.exp (-(length Real.sqrt (add (⟨0, 6372e3, 0⟩ : vec3 ℝ)
      (mul ⟨0, 0, -1⟩ (0.0 + h * 0.5))) - 6371e3) / 8e3) * h = oR at b1 hoR
    generalize Real.exp (-(length Real.sqrt (add (⟨0, 6372e3, 0⟩ : vec3 ℝ)
      (mul ⟨0, 0, -1⟩ (0.0 + h * 0.5))) - 6371e3) / 1.2e3) * h = oM at b2
    have c1 : (0.0829 : ℝ) * 28500 ≤ Q * oM :=
      mul_le_mul hQ b2 (by norm_num) hQ0
    have c2 : P * oR ≤ (0.08953 : ℝ) * 66800 :=
      mul_le_mul hP b1 hoR (by norm_num)
    show 0 < Q * 21e-6 * oM * (1 - 0.6252) + P * oR * (5.5e-6 - 13.0e-6 * 0.6252)
    norm_num at c1 c2 ⊢
    nlinarith
  -- the depth seen by the sample of every later pass is at least 121400
  have key : ∀ n : Nat, n ≤ 14 →
      121400 ≤ (iBody Real.sqrt Real.exp (⟨0, 6372e3, 0⟩ : vec3 ℝ) ⟨0, 0, -1⟩
          (normalize Real.sqrt ⟨0, 1, -1⟩) 6371e3 6471e3 ⟨5.5e-6, 13.0e-6, 22.4e-6⟩ 21e-6 8e3
          1.2e3 h
          ((iBody Real.sqrt Real.exp (⟨0, 6372e3, 0⟩ : vec3 ℝ) ⟨0, 0, -1⟩
            (normalize Real.sqrt ⟨0, 1, -1⟩) 6371e3 6471e3 ⟨5.5e-6, 13.0e-6, 22.4e-6⟩ 21e-6 8e3
            1.2e3 h)^[n + 1] ⟨0.0, ⟨0, 0, 0⟩, ⟨0, 0, 0⟩, 0.0, 0.0⟩)).iOdRlh
        + (jLoop Real.sqrt Real.exp (add (⟨0, 6372e3, 0⟩ : vec3 ℝ) (mul ⟨0, 0, -1⟩
            (((iBody Real.sqrt Real.exp (⟨0, 6372e3, 0⟩ : vec3 ℝ) ⟨0, 0, -1⟩
              (normalize Real.sqrt ⟨0, 1, -1⟩) 6371e3 6471e3 ⟨5.5e-6, 13.0e-6, 22.4e-6⟩ 21e-6 8e3
              1.2e3 h)^[n + 1] ⟨0.0, ⟨0, 0, 0⟩, ⟨0, 0, 0⟩, 0.0, 0.0⟩).iTime + h * 0.5)))
            (normalize Real.sqrt ⟨0, 1, -1⟩) 6371e3 6471e3 8e3 1.2e3).jOdRlh := by
    intro n hn
    have hn' : (n : ℝ) ≤ 14 := by exact_mod_cast hn
    have hn0 : (0 : ℝ) ≤ n := Nat.cast_nonneg n
    rw [iBody_iterate_iTime]
    have a1 := iBody_iterate_iOdRlh_mono (⟨0, 6372e3, 0⟩ : vec3 ℝ) ⟨0, 0, -1⟩
      (normalize Real.sqrt ⟨0, 1, -1⟩) 6371e3 6471e3 ⟨5.5e-6, 13.0e-6, 22.4e-6⟩ 21e-6 8e3
      1.2e3 h hpos.le 2 n
    rw [show 2 + n = (n + 1) + 1 by ring, Function.iterate_succ_apply' (n := n + 1)] at a1
    have a2 := centre_first_step h hh1 hh2
    have a2' := centre_second_step h hh1 hh2
    have a4 : 122900 ≤ ((iBody Real.sqrt Real.exp (⟨0, 6372e3, 0⟩ : vec3 ℝ) ⟨0, 0, -1⟩
        (normalize Real.sqrt ⟨0, 1, -1⟩) 6371e3 6471e3 ⟨5.5e-6, 13.0e-6, 22.4e-6⟩ 21e-6 8e3
        1.2e3 h)^[2] ⟨0.0, ⟨0, 0, 0⟩, ⟨0, 0, 0⟩, 0.0, 0.0⟩).iOdRlh := by
      show 122900 ≤ (0.0 + Real.exp (-(length Real.sqrt (add (⟨0, 6372e3, 0⟩ : vec3 ℝ)
          (mul ⟨0, 0, -1⟩ (0.0 + h * 0.5))) - 6371e3) / 8e3) * h)
        + Real.exp (-(length Real.sqrt (add (⟨0, 6372e3, 0⟩ : vec3 ℝ)
          (mul ⟨0, 0, -1⟩ (0.0 + h + h * 0.5))) - 6371e3) / 8e3) * h
      have z := zero_lit
      linarith
    have a3 := centre_jOdRlh_lower (((n + 1 : ℕ) : ℝ) * h + h * 0.5) (by positivity)
      (by push_cast; norm_num; nlinarith)
    linarith
  -- the weighted difference stays positive
  have inv : ∀ n : Nat, n ≤ 15 →
      0 < P * (5.5e-6 * ((iBody Real.sqrt Real.exp (⟨0, 6372e3, 0⟩ : vec3 ℝ)
          ⟨0, 0, -1⟩ (normalize Real.sqrt ⟨0, 1, -1⟩) 6371e3 6471e3 ⟨5.5e-6, 13.0e-6, 22.4e-6⟩
          21e-6 8e3 1.2e3 h)^[n + 1] ⟨0.0, ⟨0, 0, 0⟩, ⟨0, 0, 0⟩, 0.0, 0.0⟩).totalRlh.x
        - 13.0e-6 * ((iBody Real.sqrt Real.exp (⟨0, 6372e3, 0⟩ : vec3 ℝ)
          ⟨0, 0, -1⟩ (normalize Real.sqrt ⟨0, 1, -1⟩) 6371e3 6471e3 ⟨5.5e-6, 13.0e-6, 22.4e-6⟩
          21e-6 8e3 1.2e3 h)^[n + 1] ⟨0.0, ⟨0, 0, 0⟩, ⟨0, 0, 0⟩, 0.0, 0.0⟩).totalRlh.y)
      + Q * 21e-6 * (((iBody Real.sqrt Real.exp (⟨0, 6372e3, 0⟩ : vec3 ℝ)
          ⟨0, 0, -1⟩ (normalize Real.sqrt ⟨0, 1, -1⟩) 6371e3 6471e3 ⟨5.5e-6, 13.0e-6, 22.4e-6⟩
          21e-6 8e3 1.2e3 h)^[n + 1] ⟨0.0, ⟨0, 0, 0⟩, ⟨0, 0, 0⟩, 0.0, 0.0⟩).totalMie.x
        - ((iBody Real.sqrt Real.exp (⟨0, 6372e3, 0⟩ : vec3 ℝ)
          ⟨0, 0, -1⟩ (normalize Real.sqrt ⟨0, 1, -1⟩) 6371e3 6471e3 ⟨5.5e-6, 13.0e-6, 22.4e-6⟩
          21e-6 8e3 1.2e3 h)^[n + 1] ⟨0.0, ⟨0, 0, 0⟩, ⟨0, 0, 0⟩, 0.0, 0.0⟩).totalMie.y) := by
    intro n
    induction n with
    | zero => intro _; exact first
    | succ n ih =>
      intro hn
      have hn14 : n ≤ 14 := Nat.le_of_succ_le_succ hn
      have i1 := ih (Nat.le_of_succ_le hn)
      obtain ⟨r1, r2⟩ := centre_ratio_later _ (key n hn14)
      rw [Function.iterate_succ_apply' (n := n + 1)]
      exact lt_of_lt_of_le i1 (iBody_F_mono (⟨0, 6372e3, 0⟩ : vec3 ℝ) ⟨0, 0, -1⟩
        (normalize Real.sqrt ⟨0, 1, -1⟩) 6371e3 6471e3 ⟨5.5e-6, 13.0e-6, 22.4e-6⟩ 21e-6 8e3
        1.2e3 h P Q hpos.le hP0 hQ0 (by norm_num) _ r1 r2)
  exact inv 15 (le_refl 15)

/-- For the driver's centre ray and the Earth preset the second channel of `atmosphere` is
strictly below the first. -/
theorem centre_y_lt_x :
    (ATMOSPHERE_EARTH (atmosphere Real.sqrt Real.exp Real.rpow (⟨0, 6372e3, 0⟩ : vec3 ℝ)
        ⟨0, 0, -1⟩ ⟨0, 1, -1⟩)).y
      < (ATMOSPHERE_EARTH (atmosphere Real.sqrt Real.exp Real.rpow (⟨0, 6372e3, 0⟩ : vec3 ℝ)
        ⟨0, 0, -1⟩ ⟨0, 1, -1⟩)).x := by
  have hrd : (⟨0, 0, -1⟩ : vec3 ℝ) ≠ ⟨0, 0, 0⟩ := by simp [vec3_ext_iff]
  obtain ⟨-, hA, -, -⟩ := centre_farBound
  have hhit : (rsi Real.sqrt (⟨0, 6372e3, 0⟩ : vec3 ℝ) (normalize Real.sqrt ⟨0, 0, -1⟩)
      6471e3).x ≤ (rsi Real.sqrt (⟨0, 6372e3, 0⟩ : vec3 ℝ) (normalize Real.sqrt ⟨0, 0, -1⟩)
      6471e3).y := by
    rw [normalize_unit_neg_z]
    exact rsi_x_le_y _ _ _ hrd hA
  unfold ATMOSPHERE_EARTH
  rw [atmosphere_of_hit _ _ _ _ _ _ _ _ _ _ _ hhit]
  have hF := centre_F_pos _ _ (pRlhOf_pos (dot (⟨0, 0, -1⟩ : vec3 ℝ)
    (normalize Real.sqrt ⟨0, 1, -1⟩))).le centre_pRlh_upper centre_pMie_lower
  rw [normalize_unit_neg_z]
  generalize iLoop Real.sqrt Real.exp (⟨0, 6372e3, 0⟩ : vec3 ℝ) ⟨0, 0, -1⟩
    (normalize Real.sqrt ⟨0, 1, -1⟩) 6371e3 6471e3 ⟨5.5e-6, 13.0e-6, 22.4e-6⟩ 21e-6 8e3 1.2e3
    _ = S at hF ⊢
  generalize pRlhOf (dot (⟨0, 0, -1⟩ : vec3 ℝ) (normalize Real.sqrt ⟨0, 1, -1⟩)) = P at hF ⊢
  generalize pMieOf Real.rpow (dot (⟨0, 0, -1⟩ : vec3 ℝ) (normalize Real.sqrt ⟨0, 1, -1⟩))
    0.758 = Q at hF ⊢
  dsimp only
  have hI : (0 : ℝ) < 22.0 := by norm_num
  exact mul_lt_mul_of_pos_left (by linarith) hI

/-- C10, as stated, fails: for origin `(0, 6372e3, 0)`, view direction `(0, 0, -1)`, sun
direction `(0, 1, -1)` and the Earth preset, the result of `atmosphere` does not have
`result.x < result.y < result.z`. -/
theorem centre_not_rgb_increasing :
    ¬ ((ATMOSPHERE_EARTH (atmosphere Real.sqrt Real.exp Real.rpow (⟨0, 6372e3, 0⟩ : vec3 ℝ)
          ⟨0, 0, -1⟩ ⟨0, 1, -1⟩)).x
        < (ATMOSPHERE_EARTH (atmosphere Real.sqrt Real.exp Real.rpow (⟨0, 6372e3, 0⟩ : vec3 ℝ)
          ⟨0, 0, -1⟩ ⟨0, 1, -1⟩)).y ∧
      (ATMOSPHERE_EARTH (atmosphere Real.sqrt Real.exp Real.rpow (⟨0, 6372e3, 0⟩ : vec3 ℝ)
          ⟨0, 0, -1⟩ ⟨0, 1, -1⟩)).y
        < (ATMOSPHERE_EARTH (atmosphere Real.sqrt Real.exp Real.rpow (⟨0, 6372e3, 0⟩ : vec3 ℝ)
          ⟨0, 0, -1⟩ ⟨0, 1, -1⟩)).z) :=
  fun h => absurd h.2 (not_lt.mpr centre_z_lt_y.le)

/-- C10, amended: for origin `(0, 6372e3, 0)`, view direction `(0, 0, -1)`, sun direction
`(0, 1, -1)` and the Earth preset, the channels of the result of `atmosphere` are in the
opposite order, `result.z < result.y < result.x`, and the same holds after `expose`. -/
theorem centre_rgb_decreasing :
    ((ATMOSPHERE_EARTH (atmosphere Real.sqrt Real.exp Real.rpow (⟨0, 6372e3, 0⟩ : vec3 ℝ)
          ⟨0, 0, -1⟩ ⟨0, 1, -1⟩)).z
        < (ATMOSPHERE_EARTH (atmosphere Real.sqrt Real.exp Real.rpow (⟨0, 6372e3, 0⟩ : vec3 ℝ)
          ⟨0, 0, -1⟩ ⟨0, 1, -1⟩)).y ∧
      (ATMOSPHERE_EARTH (atmosphere Real.sqrt Real.exp Real.rpow (⟨0, 6372e3, 0⟩ : vec3 ℝ)
          ⟨0, 0, -1⟩ ⟨0, 1, -1⟩)).y
        < (ATMOSPHERE_EARTH (atmosphere Real.sqrt Real.exp Real.rpow (⟨0, 6372e3, 0⟩ : vec3 ℝ)
          ⟨0, 0, -1⟩ ⟨0, 1, -1⟩)).x) ∧
    ((expose Real.exp (ATMOSPHERE_EARTH (atmosphere Real.sqrt Real.exp Real.rpow
          (⟨0, 6372e3, 0⟩ : vec3 ℝ) ⟨0, 0, -1⟩ ⟨0, 1, -1⟩))).z
        < (expose Real.exp (ATMOSPHERE_EARTH (atmosphere Real.sqrt Real.exp Real.rpow
          (⟨0, 6372e3, 0⟩ : vec3 ℝ) ⟨0, 0, -1⟩ ⟨0, 1, -1⟩))).y ∧
      (expose Real.exp (ATMOSPHERE_EARTH (atmosphere Real.sqrt Real.exp Real.rpow
          (⟨0, 6372e3, 0⟩ : vec3 ℝ) ⟨0, 0, -1⟩ ⟨0, 1, -1⟩))).y
        < (expose Real.exp (ATMOSPHERE_EARTH (atmosphere Real.sqrt Real.exp Real.rpow
          (⟨0, 6372e3, 0⟩ : vec3 ℝ) ⟨0, 0, -1⟩ ⟨0, 1, -1⟩))).x) :=
  ⟨⟨centre_z_lt_y, centre_y_lt_x⟩,
   ⟨tone_strictMono _ _ centre_z_lt_y, tone_strictMono _ _ centre_y_lt_x⟩⟩

/-! ## Normalisation -/

/-- The primary loop body takes its sample at `iPosOf`: the Rayleigh depth grows by the
increment `odStep` at the height of that point. -/
theorem iBody_iOdRlh_eq (r0 rd pSun : vec3 ℝ) (rPlanet rAtmos : ℝ) (kRlh : vec3 ℝ)
    (kMie shRlh shMie iStepSize : ℝ) (s : iState ℝ) :
    (iBody Real.sqrt Real.exp r0 rd pSun rPlanet rAtmos kRlh kMie shRlh shMie iStepSize
        s).iOdRlh
      = s.iOdRlh + odStep Real.exp (length Real.sqrt (iPosOf r0 rd iStepSize s) - rPlanet)
          shRlh iStepSize ∧
    (iBody Real.sqrt Real.exp r0 rd pSun rPlanet rAtmos kRlh kMie shRlh shMie iStepSize
        s).iOdMie
      = s.iOdMie + odStep Real.exp (length Real.sqrt (iPosOf r0 rd iStepSize s) - rPlanet)
          shMie iStepSize :=
  ⟨rfl, rfl⟩

/-- The secondary loop body accumulates the same increment `odStep` at the height of its
own sample point. -/
theorem jBody_jOd_eq (iPos pSun : vec3 ℝ) (rPlanet shRlh shMie jStepSize : ℝ) (s : jState ℝ) :
    (jBody Real.sqrt Real.exp iPos pSun rPlanet shRlh shMie jStepSize s).jOdRlh
      = s.jOdRlh + odStep Real.exp
          (length Real.sqrt (add iPos (mul pSun (s.jTime + jStepSize * 0.5))) - rPlanet)
          shRlh jStepSize ∧
    (jBody Real.sqrt Real.exp iPos pSun rPlanet shRlh shMie jStepSize s).jOdMie
      = s.jOdMie + odStep Real.exp
          (length Real.sqrt (add iPos (mul pSun (s.jTime + jStepSize * 0.5))) - rPlanet)
          shMie jStepSize :=
  ⟨rfl, rfl⟩

/-- The `i`-th primary sample is taken at distance `(i + 0.5) * iStepSize` from the ray
origin. -/
theorem iPosOf_iterate (r0 rd pSun : vec3 ℝ) (rPlanet rAtmos : ℝ) (kRlh : vec3 ℝ)
    (kMie shRlh shMie iStepSize : ℝ) (i : Nat) :
    iPosOf r0 rd iStepSize
        ((iBody Real.sqrt Real.exp r0 rd pSun rPlanet rAtmos kRlh kMie shRlh shMie
          iStepSize)^[i] ⟨0.0, ⟨0, 0, 0⟩, ⟨0, 0, 0⟩, 0.0, 0.0⟩)
      = add r0 (mul rd ((i + 0.5) * iStepSize)) := by
  unfold iPosOf
  rw [iBody_iterate_iTime]
  congr 2
  ring

/-- C12, as stated, fails: for the driver's centre ray (origin `(0, 6372e3, 0)`, direction
`(0, 0, -1)`, Earth radii) the first primary sample is not
`r0 + rd * (tNear + 0.5 * iStepSize)`: the near bound `tNear = rsi(r0, rd, rAtmos).x` is
negative and is not used as the starting offset. -/
theorem first_sample_not_offset_by_near :
    iPosOf (⟨0, 6372e3, 0⟩ : vec3 ℝ) (normalize Real.sqrt ⟨0, 0, -1⟩)
        (iStepSizeOf Real.sqrt (⟨0, 6372e3, 0⟩ : vec3 ℝ) (normalize Real.sqrt ⟨0, 0, -1⟩)
          6371e3 6471e3)
        ⟨0.0, ⟨0, 0, 0⟩, ⟨0, 0, 0⟩, 0.0, 0.0⟩
      ≠ add (⟨0, 6372e3, 0⟩ : vec3 ℝ) (mul (normalize Real.sqrt ⟨0, 0, -1⟩)
          ((rsi Real.sqrt (⟨0, 6372e3, 0⟩ : vec3 ℝ) (normalize Real.sqrt ⟨0, 0, -1⟩) 6471e3).x
            + (0 + 0.5) * iStepSizeOf Real.sqrt (⟨0, 6372e3, 0⟩ : vec3 ℝ)
                (normalize Real.sqrt ⟨0, 0, -1⟩) 6371e3 6471e3)) := by
  rw [normalize_unit_neg_z]
  obtain ⟨-, -, -, hfar⟩ := centre_farBound
  obtain ⟨h1, -⟩ := centre_iStepSize
  have hx : (rsi Real.sqrt (⟨0, 6372e3, 0⟩ : vec3 ℝ) ⟨0, 0, -1⟩ 6471e3).x
      = 1e5 - 16 * iStepSizeOf Real.sqrt (⟨0, 6372e3, 0⟩ : vec3 ℝ) ⟨0, 0, -1⟩ 6371e3 6471e3 := by
    unfold iStepSizeOf
    rw [hfar]
    unfold ISTEPS
    push_cast
    ring
  rw [hx]
  generalize iStepSizeOf Real.sqrt (⟨0, 6372e3, 0⟩ : vec3 ℝ) ⟨0, 0, -1⟩ 6371e3 6471e3 = h at h1
  intro heq
  rw [vec3_ext_iff] at heq
  obtain ⟨-, -, hz⟩ := heq
  simp only [iPosOf, add, mul] at hz
  norm_num at hz
  linarith

/-- C12, amended: the 16 primary samples are the midpoints of 16 consecutive steps of width
`iStepSize = (tFar - tNear) / 16` that start at the ray origin (offset `0`, not `tNear`): for
every `i` the `i`-th primary sample position is `r0 + rd * ((i + 0.5) * iStepSize)`, where
`tFar` is the clamped far bound and `tNear = rsi(r0, rd, rAtmos).x`. -/
theorem primary_samples (r0 rd pSun : vec3 ℝ) (rPlanet rAtmos : ℝ) (kRlh : vec3 ℝ)
    (kMie shRlh shMie : ℝ) (i : Nat) :
    iPosOf r0 rd (iStepSizeOf Real.sqrt r0 rd rPlanet rAtmos)
        ((iBody Real.sqrt Real.exp r0 rd pSun rPlanet rAtmos kRlh kMie shRlh shMie
          (iStepSizeOf Real.sqrt r0 rd rPlanet rAtmos))^[i]
          ⟨0.0, ⟨0, 0, 0⟩, ⟨0, 0, 0⟩, 0.0, 0.0⟩)
      = add r0 (mul rd ((i + 0.5) * iStepSizeOf Real.sqrt r0 rd rPlanet rAtmos)) ∧
    iStepSizeOf Real.sqrt r0 rd rPlanet rAtmos
      = (farBound Real.sqrt r0 rd rPlanet rAtmos - (rsi Real.sqrt r0 rd rAtmos).x) / 16 := by
  refine ⟨iPosOf_iterate r0 rd pSun rPlanet rAtmos kRlh kMie shRlh shMie _ i, ?_⟩
  unfold iStepSizeOf ISTEPS
  norm_num

/-! ## Decay of the optical depth increment with altitude -/

/-- With a negative primary step, one pass of the loop body keeps the Mie totals
non-positive and makes the Rayleigh totals strictly negative. -/
theorem iBody_totals_neg (r0 rd pSun : vec3 ℝ) (rPlanet rAtmos : ℝ) (kRlh : vec3 ℝ)
    (kMie shRlh shMie iStepSize : ℝ) (hstep : iStepSize < 0) (s : iState ℝ)
    (hs : (s.totalRlh.x ≤ 0 ∧ s.totalRlh.y ≤ 0 ∧ s.totalRlh.z ≤ 0) ∧
      (s.totalMie.x ≤ 0 ∧ s.totalMie.y ≤ 0 ∧ s.totalMie.z ≤ 0)) :
    ((iBody Real.sqrt Real.exp r0 rd pSun rPlanet rAtmos kRlh kMie shRlh shMie
            iStepSize s).totalRlh.x < 0 ∧
      (iBody Real.sqrt Real.exp r0 rd pSun rPlanet rAtmos kRlh kMie shRlh shMie
            iStepSize s).totalRlh.y < 0 ∧
      (iBody Real.sqrt Real.exp r0 rd pSun rPlanet rAtmos kRlh kMie shRlh shMie
            iStepSize s).totalRlh.z < 0) ∧
    ((iBody Real.sqrt Real.exp r0 rd pSun rPlanet rAtmos kRlh kMie shRlh shMie
            iStepSize s).totalMie.x ≤ 0 ∧
      (iBody Real.sqrt Real.exp r0 rd pSun rPlanet rAtmos kRlh kMie shRlh shMie
            iStepSize s).totalMie.y ≤ 0 ∧
      (iBody Real.sqrt Real.exp r0 rd pSun rPlanet rAtmos kRlh kMie shRlh shMie
            iStepSize s).totalMie.z ≤ 0) := by
  obtain ⟨⟨h1, h2, h3⟩, h4, h5, h6⟩ := hs
  simp only [iBody, add, mul]
  refine ⟨⟨?_, ?_, ?_⟩, ?_, ?_, ?_⟩
  · exact add_neg_of_nonpos_of_neg h1
      (mul_neg_of_pos_of_neg (Real.exp_pos _) (mul_neg_of_pos_of_neg (Real.exp_pos _) hstep))
  · exact add_neg_of_nonpos_of_neg h2
      (mul_neg_of_pos_of_neg (Real.exp_pos _) (mul_neg_of_pos_of_neg (Real.exp_pos _) hstep))
  · exact add_neg_of_nonpos_of_neg h3
      (mul_neg_of_pos_of_neg (Real.exp_pos _) (mul_neg_of_pos_of_neg (Real.exp_pos _) hstep))
  · exact add_nonpos h4
      (mul_neg_of_pos_of_neg (Real.exp_pos _) (mul_neg_of_pos_of_neg (Real.exp_pos _) hstep)).le
  · exact add_nonpos h5
      (mul_neg_of_pos_of_neg (Real.exp_pos _) (mul_neg_of_pos_of_neg (Real.exp_pos _) hstep)).le
  · exact add_nonpos h6
      (mul_neg_of_pos_of_neg (Real.exp_pos _) (mul_neg_of_pos_of_neg (Real.exp_pos _) hstep)).le

/-- With a negative primary step the Rayleigh totals are negative and the Mie totals
non-positive after any positive number of passes of the primary loop. -/
theorem iterate_totals_neg (r0 rd pSun : vec3 ℝ) (rPlanet rAtmos : ℝ) (kRlh : vec3 ℝ)
    (kMie shRlh shMie iStepSize : ℝ) (hstep : iStepSize < 0) (n : Nat) :
    (((iBody Real.sqrt Real.exp r0 rd pSun rPlanet rAtmos kRlh kMie shRlh shMie
            iStepSize)^[n + 1] ⟨0.0, ⟨0, 0, 0⟩, ⟨0, 0, 0⟩, 0.0, 0.0⟩).totalRlh.x < 0 ∧
      ((iBody Real.sqrt Real.exp r0 rd pSun rPlanet rAtmos kRlh kMie shRlh shMie
            iStepSize)^[n + 1] ⟨0.0, ⟨0, 0, 0⟩, ⟨0, 0, 0⟩, 0.0, 0.0⟩).totalRlh.y < 0 ∧
      ((iBody Real.sqrt Real.exp r0 rd pSun rPlanet rAtmos kRlh kMie shRlh shMie
            iStepSize)^[n + 1] ⟨0.0, ⟨0, 0, 0⟩, ⟨0, 0, 0⟩, 0.0, 0.0⟩).totalRlh.z < 0) ∧
    (((iBody Real.sqrt Real.exp r0 rd pSun rPlanet rAtmos kRlh kMie shRlh shMie
            iStepSize)^[n + 1] ⟨0.0, ⟨0, 0, 0⟩, ⟨0, 0, 0⟩, 0.0, 0.0⟩).totalMie.x ≤ 0 ∧
      ((iBody Real.sqrt Real.exp r0 rd pSun rPlanet rAtmos kRlh kMie shRlh shMie
            iStepSize)^[n + 1] ⟨0.0, ⟨0, 0, 0⟩, ⟨0, 0, 0⟩, 0.0, 0.0⟩).totalMie.y ≤ 0 ∧
      ((iBody Real.sqrt Real.exp r0 rd pSun rPlanet rAtmos kRlh kMie shRlh shMie
            iStepSize)^[n + 1] ⟨0.0, ⟨0, 0, 0⟩, ⟨0, 0, 0⟩, 0.0, 0.0⟩).totalMie.z ≤ 0) := by
  induction n with
  | zero =>
    rw [zero_add, Function.iterate_one]
    exact iBody_totals_neg _ _ _ _ _ _ _ _ _ _ hstep _
      ⟨⟨le_refl _, le_refl _, le_refl _⟩, le_refl _, le_refl _, le_refl _⟩
  | succ n ih =>
    rw [Function.iterate_succ_apply']
    obtain ⟨⟨h1, h2, h3⟩, h4, h5, h6⟩ := ih
    exact iBody_totals_neg _ _ _ _ _ _ _ _ _ _ hstep _ ⟨⟨h1.le, h2.le, h3.le⟩, h4, h5, h6⟩

/-- With a negative primary step the Rayleigh totals left by the primary loop are negative
and the Mie totals non-positive. -/
theorem iLoop_totals_neg (r0 rd pSun : vec3 ℝ) (rPlanet rAtmos : ℝ) (kRlh : vec3 ℝ)
    (kMie shRlh shMie iStepSize : ℝ) (hstep : iStepSize < 0) :
    ((iLoop Real.sqrt Real.exp r0 rd pSun rPlanet rAtmos kRlh kMie shRlh shMie
            iStepSize).totalRlh.x < 0 ∧
      (iLoop Real.sqrt Real.exp r0 rd pSun rPlanet rAtmos kRlh kMie shRlh shMie
            iStepSize).totalRlh.y < 0 ∧
      (iLoop Real.sqrt Real.exp r0 rd pSun rPlanet rAtmos kRlh kMie shRlh shMie
            iStepSize).totalRlh.z < 0) ∧
    ((iLoop Real.sqrt Real.exp r0 rd pSun rPlanet rAtmos kRlh kMie shRlh shMie
            iStepSize).totalMie.x ≤ 0 ∧
      (iLoop Real.sqrt Real.exp r0 rd pSun rPlanet rAtmos kRlh kMie shRlh shMie
            iStepSize).totalMie.y ≤ 0 ∧
      (iLoop Real.sqrt Real.exp r0 rd pSun rPlanet rAtmos kRlh kMie shRlh shMie
            iStepSize).totalMie.z ≤ 0) :=
  iterate_totals_neg r0 rd pSun rPlanet rAtmos kRlh kMie shRlh shMie iStepSize hstep 15

/-- On the hit branch every channel of `atmosphere` is strictly negative when the sun
intensity and the Rayleigh coefficients are positive, the Mie coefficient is non-negative,
`g^2 ≤ 1`, both directions are non-zero and the primary step size is negative. -/
theorem atmosphere_neg_of_step (r0 rd pSun : vec3 ℝ) (iSun rPlanet rAtmos : ℝ)
    (kRlh : vec3 ℝ) (kMie shRlh shMie g : ℝ)
    (hrd : rd ≠ ⟨0, 0, 0⟩) (hsun : pSun ≠ ⟨0, 0, 0⟩)
    (hI : 0 < iSun) (hkx : 0 < kRlh.x) (hky : 0 < kRlh.y) (hkz : 0 < kRlh.z) (hkM : 0 ≤ kMie)
    (hg : g * g ≤ 1)
    (hhit : (rsi Real.sqrt r0 (normalize Real.sqrt rd) rAtmos).x
      ≤ (rsi Real.sqrt r0 (normalize Real.sqrt rd) rAtmos).y)
    (hstep : iStepSizeOf Real.sqrt r0 (normalize Real.sqrt rd) rPlanet rAtmos < 0) :
    (atmosphere Real.sqrt Real.exp Real.rpow r0 rd pSun iSun rPlanet rAtmos kRlh kMie
        shRlh shMie g).x < 0 ∧
    (atmosphere Real.sqrt Real.exp Real.rpow r0 rd pSun iSun rPlanet rAtmos kRlh kMie
        shRlh shMie g).y < 0 ∧
    (atmosphere Real.sqrt Real.exp Real.rpow r0 rd pSun iSun rPlanet rAtmos kRlh kMie
        shRlh shMie g).z < 0 := by
  rw [atmosphere_of_hit _ _ _ _ _ _ _ _ _ _ _ hhit]
  have hR := pRlhOf_pos (dot (normalize Real.sqrt rd) (normalize Real.sqrt pSun))
  have hM := pMieOf_nonneg _ g (mu_sq_le_one hrd hsun) hg
  have hT := iLoop_totals_neg r0 (normalize Real.sqrt rd) (normalize Real.sqrt pSun)
    rPlanet rAtmos kRlh kMie shRlh shMie _ hstep
  generalize iLoop Real.sqrt Real.exp r0 (normalize Real.sqrt rd) (normalize Real.sqrt pSun)
    rPlanet rAtmos kRlh kMie shRlh shMie _ = S at hT ⊢
  obtain ⟨⟨h1, h2, h3⟩, h4, h5, h6⟩ := hT
  dsimp only
  have hMk := mul_nonneg hM hkM
  refine ⟨?_, ?_, ?_⟩
  · have a := mul_neg_of_pos_of_neg (mul_pos hR hkx) h1
    have b := mul_nonpos_of_nonneg_of_nonpos hMk h4
    exact mul_neg_of_pos_of_neg hI (by linarith)
  · have a := mul_neg_of_pos_of_neg (mul_pos hR hky) h2
    have b := mul_nonpos_of_nonneg_of_nonpos hMk h5
    exact mul_neg_of_pos_of_neg hI (by linarith)
  · have a := mul_neg_of_pos_of_neg (mul_pos hR hkz) h3
    have b := mul_nonpos_of_nonneg_of_nonpos hMk h6
    exact mul_neg_of_pos_of_neg hI (by linarith)

/-- C14, the code at the failing input: for the Earth preset (all parameters admissible),
the origin `(0, 6400e3, 1.1e6)` outside the atmosphere, view direction `(0, 0, -1)` and sun
direction `(0, 1, 0)`, the line hits the atmosphere and misses the planet; the atmosphere's
near distance exceeds the sentinel `1e5` that `rsi` returns for the planet miss, so the
clamped far bound `1e5` lies before the near bound, `iStepSize` is negative, and every
channel of the result is strictly negative. -/
theorem atmosphere_negative_outside :
    rsi_d (⟨0, 6400e3, 1.1e6⟩ : vec3 ℝ) (normalize Real.sqrt ⟨0, 0, -1⟩) 6371e3 < 0 ∧
    (1e5 : ℝ) < (rsi Real.sqrt (⟨0, 6400e3, 1.1e6⟩ : vec3 ℝ) (normalize Real.sqrt ⟨0, 0, -1⟩)
      6471e3).x ∧
    iStepSizeOf Real.sqrt (⟨0, 6400e3, 1.1e6⟩ : vec3 ℝ) (normalize Real.sqrt ⟨0, 0, -1⟩)
      6371e3 6471e3 < 0 ∧
    (ATMOSPHERE_EARTH (atmosphere Real.sqrt Real.exp Real.rpow (⟨0, 6400e3, 1.1e6⟩ : vec3 ℝ)
        ⟨0, 0, -1⟩ ⟨0, 1, 0⟩)).x < 0 ∧
    (ATMOSPHERE_EARTH (atmosphere Real.sqrt Real.exp Real.rpow (⟨0, 6400e3, 1.1e6⟩ : vec3 ℝ)
        ⟨0, 0, -1⟩ ⟨0, 1, 0⟩)).y < 0 ∧
    (ATMOSPHERE_EARTH (atmosphere Real.sqrt Real.exp Real.rpow (⟨0, 6400e3, 1.1e6⟩ : vec3 ℝ)
        ⟨0, 0, -1⟩ ⟨0, 1, 0⟩)).z < 0 := by
  have hrd : (⟨0, 0, -1⟩ : vec3 ℝ) ≠ ⟨0, 0, 0⟩ := by simp [vec3_ext_iff]
  have hsun : (⟨0, 1, 0⟩ : vec3 ℝ) ≠ ⟨0, 0, 0⟩ := by simp [vec3_ext_iff]
  have hP : rsi_d (⟨0, 6400e3, 1.1e6⟩ : vec3 ℝ) (normalize Real.sqrt ⟨0, 0, -1⟩) 6371e3 < 0 := by
    rw [normalize_unit_neg_z, rsi_d_eq]; simp only [dot]; norm_num
  have hA : 0 ≤ rsi_d (⟨0, 6400e3, 1.1e6⟩ : vec3 ℝ) (normalize Real.sqrt ⟨0, 0, -1⟩) 6471e3 := by
    rw [normalize_unit_neg_z, rsi_d_eq]; simp only [dot]; norm_num
  have hhit := rsi_x_le_y _ _ _ (normalize_ne_zero hrd) hA
  have hx : (1e5 : ℝ) < (rsi Real.sqrt (⟨0, 6400e3, 1.1e6⟩ : vec3 ℝ)
      (normalize Real.sqrt ⟨0, 0, -1⟩) 6471e3).x := by
    rw [rsi_of_nonneg _ _ _ hA]
    show (1e5 : ℝ) < _ / _
    rw [normalize_unit_neg_z]
    rw [lt_div_iff₀ (by simp only [dot]; norm_num)]
    have : Real.sqrt (rsi_d (⟨0, 6400e3, 1.1e6⟩ : vec3 ℝ) ⟨0, 0, -1⟩ 6471e3) < 2e6 := by
      rw [Real.sqrt_lt' (by norm_num)]
      rw [rsi_d_eq]; simp only [dot]; norm_num
    simp only [dot]
    norm_num at this ⊢
    linarith
  have hstep : iStepSizeOf Real.sqrt (⟨0, 6400e3, 1.1e6⟩ : vec3 ℝ)
      (normalize Real.sqrt ⟨0, 0, -1⟩) 6371e3 6471e3 < 0 := by
    unfold iStepSizeOf farBound Atmosphere.min
    rw [rsi_of_neg _ _ _ hP]
    have hy : ¬ (rsi Real.sqrt (⟨0, 6400e3, 1.1e6⟩ : vec3 ℝ)
        (normalize Real.sqrt ⟨0, 0, -1⟩) 6471e3).y < 1e5 := by
      intro h; linarith
    simp only [hy, if_false]
    apply div_neg_of_neg_of_pos _ (by unfold ISTEPS; norm_num)
    linarith
  have hneg := atmosphere_neg_of_step ⟨0, 6400e3, 1.1e6⟩ ⟨0, 0, -1⟩ ⟨0, 1, 0⟩
    22.0 6371e3 6471e3 ⟨5.5e-6, 13.0e-6, 22.4e-6⟩ 21e-6 8e3 1.2e3 0.758
    hrd hsun (by norm_num) (by norm_num) (by norm_num) (by norm_num) (by norm_num)
    earth_g_sq hhit hstep
  exact ⟨hP, hx, hstep, hneg⟩

/-! ## Linearity in the sun intensity -/

theorem rsi_d_nonneg_of_inside (r0 rd : vec3 ℝ) (sr : ℝ) (hin : dot r0 r0 ≤ sr * sr) :
    (2.0 * dot rd r0) * (2.0 * dot rd r0) ≤ rsi_d r0 rd sr := by
  rw [rsi_d_eq, four_lit]
  nlinarith [mul_nonneg (dot_self_nonneg rd) (sub_nonneg.mpr hin)]

/-- For an origin inside (or on) the sphere and a non-zero direction, the near distance
returned by `rsi` is non-positive. -/
theorem rsi_x_nonpos_of_inside (r0 rd : vec3 ℝ) (sr : ℝ) (hrd : rd ≠ ⟨0, 0, 0⟩)
    (hin : dot r0 r0 ≤ sr * sr) : (rsi Real.sqrt r0 rd sr).x ≤ 0 := by
  have hpos := dot_self_pos hrd
  have hbb := rsi_d_nonneg_of_inside r0 rd sr hin
  have hA : 0 ≤ rsi_d r0 rd sr := le_trans (mul_self_nonneg _) hbb
  have habs : |2.0 * dot rd r0| ≤ Real.sqrt (rsi_d r0 rd sr) := by
    apply Real.abs_le_sqrt
    rw [pow_two]; exact hbb
  have ha : 0 < 2.0 * dot rd rd := by
    rw [two_lit]; positivity
  rw [rsi_of_nonneg r0 rd sr hA]
  show _ / _ ≤ 0
  apply div_nonpos_of_nonpos_of_nonneg _ ha.le
  linarith [neg_abs_le (2.0 * dot rd r0)]

/-- C17: for an origin inside or on the sphere (`dot(r0,r0) ≤ sr^2`) and a non-zero
direction, `rsi` is a real hit (non-negative discriminant) with `x ≤ 0 ≤ y`; hence the
secondary step size `rsi(...).y / 8` is non-negative and the end point `r0 + y*rd` lies on
the sphere. -/
theorem rsi_inside (r0 rd : vec3 ℝ) (sr : ℝ) (hrd : rd ≠ ⟨0, 0, 0⟩)
    (hin : dot r0 r0 ≤ sr ^ 2) :
    0 ≤ rsi_d r0 rd sr ∧
    (rsi Real.sqrt r0 rd sr).x ≤ 0 ∧ 0 ≤ (rsi Real.sqrt r0 rd sr).y ∧
    0 ≤ (rsi Real.sqrt r0 rd sr).y / (JSTEPS : ℝ) ∧
    dot (add r0 (mul rd (rsi Real.sqrt r0 rd sr).y))
      (add r0 (mul rd (rsi Real.sqrt r0 rd sr).y)) = sr ^ 2 := by
  rw [pow_two] at hin ⊢
  have hA : 0 ≤ rsi_d r0 rd sr :=
    le_trans (mul_self_nonneg _) (rsi_d_nonneg_of_inside r0 rd sr hin)
  have hy := rsi_y_nonneg_of_inside r0 rd sr hrd hin
  refine ⟨hA, rsi_x_nonpos_of_inside r0 rd sr hrd hin, hy,
    div_nonneg hy (by unfold JSTEPS; norm_num), ?_⟩
  have e := dot_ray r0 rd sr (rsi Real.sqrt r0 rd sr).y
  rw [rsi_roots r0 rd sr hrd hA _ (Or.inr rfl)] at e
  linarith

/-- C17, at a concrete input: from the driver's origin, which is inside the Earth
atmosphere, towards the sun `(0, 1, -1)` the far distance is non-negative. -/
theorem rsi_inside_witness :
    (⟨0, 1, -1⟩ : vec3 ℝ) ≠ ⟨0, 0, 0⟩ ∧
    dot (⟨0, 6372e3, 0⟩ : vec3 ℝ) ⟨0, 6372e3, 0⟩ ≤ 6471e3 ^ 2 ∧
    0 ≤ (rsi Real.sqrt (⟨0, 6372e3, 0⟩ : vec3 ℝ) ⟨0, 1, -1⟩ 6471e3).y :=
  have hsun : (⟨0, 1, -1⟩ : vec3 ℝ) ≠ ⟨0, 0, 0⟩ := by simp [vec3_ext_iff]
  have hin : dot (⟨0, 6372e3, 0⟩ : vec3 ℝ) ⟨0, 6372e3, 0⟩ ≤ 6471e3 ^ 2 := by
    simp only [dot]; norm_num
  ⟨hsun, hin, (rsi_inside ⟨0, 6372e3, 0⟩ ⟨0, 1, -1⟩ 6471e3 hsun hin).2.2.1⟩

end Atmosphere
